import Mathlib

/-!
Verification of the reedline line-editor engine (`src/engine.rs`,
`src/hinter.rs`, `src/completion/base.rs`, `src/completion/default.rs`)
against its natural-language specification.

The engine orchestrator, its event handlers, the burst classifier, the span
constructor, and the history completer / hinter are shallowly embedded from
the Rust source.  External collaborators whose code is not part of this
repository (the text buffer `Editor`/`LineBuffer`, the `FileBackedHistory`
store, the key-binding parser) are modelled from the specification; each
such definition carries a doc comment saying so.  Byte positions are
modelled as character positions (an ASCII-level model of the string
operations).
-/

namespace Reedline

/-- Outcome of one completed interaction, returned to the caller
(`Signal` in the source). -/
inductive Signal where
  | success (content : String)
  | ctrlC
  | ctrlD
  | ctrlL
deriving DecidableEq, Repr

/-- Result of the validator collaborator (`ValidationResult`). -/
inductive ValidationResult where
  | complete
  | incomplete
deriving DecidableEq, Repr

/-- Input interpretation mode of the engine (`InputMode` in `engine.rs`). -/
inductive InputMode where
  | regular
  | historySearch
  | historyTraversal
deriving DecidableEq, Repr

/-- Undo checkpoint policy attached to each edit command (`UndoBehavior`). -/
inductive UndoBehavior where
  | ignore
  | full
  | coalesce
deriving DecidableEq, Repr

/-- Abstract buffer mutations (`EditCommand` in the source; the variant
list is exactly the one matched in `Reedline::run_edit_commands`). -/
inductive EditCommand where
  | moveToStart
  | moveToEnd
  | moveToLineStart
  | moveToLineEnd
  | moveLeft
  | moveRight
  | moveWordLeft
  | moveWordRight
  | insertChar (c : Char)
  | insertString (s : String)
  | backspace
  | delete
  | backspaceWord
  | deleteWord
  | clear
  | clearToLineEnd
  | cutCurrentLine
  | cutFromStart
  | cutToEnd
  | cutWordLeft
  | cutWordRight
  | pasteCutBufferBefore
  | pasteCutBufferAfter
  | uppercaseWord
  | lowercaseWord
  | capitalizeChar
  | swapWords
  | swapGraphemes
  | undo
  | redo
  | cutRightUntil (c : Char)
  | cutRightBefore (c : Char)
  | moveRightUntil (c : Char)
  | moveRightBefore (c : Char)
  | cutLeftUntil (c : Char)
  | cutLeftBefore (c : Char)
  | moveLeftUntil (c : Char)
  | moveLeftBefore (c : Char)
  | cutFromLineStart
  | cutToLineEnd
deriving DecidableEq, Repr

/-- Modelled from the spec: each command carries a fixed `UndoBehavior` tag —
"Ignore (no checkpoint — pure navigation), Full (always opens a new undo
step), Coalesce (merges into the currently open step)".  The association
lives in `enums.rs`, which is not part of the sources; pure cursor moves and
undo/redo are tagged Ignore, single-character inserts and deletes Coalesce,
and all remaining mutations Full. -/
def EditCommand.undo_behavior : EditCommand → UndoBehavior
  | .moveToStart | .moveToEnd | .moveToLineStart | .moveToLineEnd
  | .moveLeft | .moveRight | .moveWordLeft | .moveWordRight
  | .moveRightUntil _ | .moveRightBefore _ | .moveLeftUntil _ | .moveLeftBefore _
  | .undo | .redo => .ignore
  | .insertChar _ | .backspace | .delete => .coalesce
  | _ => .full

/-- Modelled from the spec: the text-buffer primitive owning "the line
content and cursor offset" (`LineBuffer` in the external text-buffer
collaborator).  The insertion point is a character offset into the buffer. -/
structure LineBuffer where
  buffer : String
  insertionPoint : Nat
deriving DecidableEq, Repr

/-- Empty line buffer with the cursor at the start. -/
def LineBuffer.default : LineBuffer := { buffer := "", insertionPoint := 0 }

/-- Active navigation query of the history store
(`HistoryNavigationQuery` in the source; the `Normal` variant carries the
pre-traversal `LineBuffer` snapshot). -/
inductive HistoryNavigationQuery where
  | normal (original : LineBuffer)
  | prefixSearch (p : String)
  | substringSearch (needle : String)
deriving DecidableEq, Repr

/-- Device-independent input events produced by the key-binding parser
(`ReedlineEvent` in the source; the variant list is the one matched in
`Reedline::handle_editor_event` and `Reedline::handle_history_search_event`).
The `paste` and `multiple` wrappers carry nested event lists. -/
inductive ReedlineEvent where
  | handleTab
  | ctrlD
  | ctrlC
  | clearScreen
  | enter
  | edit (commands : List EditCommand)
  | mouse
  | resize (width height : Nat)
  | repaint
  | previousHistory
  | nextHistory
  | up
  | down
  | searchHistory
  | paste (events : List ReedlineEvent)
  | multiple (events : List ReedlineEvent)
  | none

/-! ### Text-buffer collaborator

The `Editor` (core_editor) is an external collaborator of the engine: the
spec keeps only its interface ("owns the line content and cursor offset;
exposes primitive mutators ... and an undo/redo checkpoint stack") and
excludes its grapheme/word-boundary algorithms from scope.  The model below
implements the primitives at character level. -/

/-- Index of the start of the word to the left of position `ip`
(skip spaces leftwards, then the word). -/
def wordLeftIndex (l : List Char) (ip : Nat) : Nat :=
  ((((l.take ip).reverse.dropWhile (fun c => c = ' ')).dropWhile (fun c => c ≠ ' '))).length

/-- Index just past the word to the right of position `ip`
(skip spaces rightwards, then the word). -/
def wordRightIndex (l : List Char) (ip : Nat) : Nat :=
  l.length - (((l.drop ip).dropWhile (fun c => c = ' ')).dropWhile (fun c => c ≠ ' ')).length

/-- Index of the first character of the line containing position `ip`. -/
def lineStartIndex (l : List Char) (ip : Nat) : Nat :=
  ip - ((l.take ip).reverse.takeWhile (fun c => c ≠ '\n')).length

/-- Index just past the last character of the line containing position `ip`
(the index of the terminating newline, or the end of the buffer). -/
def lineEndIndex (l : List Char) (ip : Nat) : Nat :=
  ip + ((l.drop ip).takeWhile (fun c => c ≠ '\n')).length

/-- Modelled from the spec: the `Editor` collaborator — a line buffer plus
a cut buffer and an undo/redo checkpoint stack with a coalescing group. -/
structure Editor where
  lineBuffer : LineBuffer
  cutBuffer : String
  undoStack : List LineBuffer
  redoStack : List LineBuffer
  groupOpen : Bool
deriving DecidableEq, Repr

/-- Fresh editor state (`Editor::default()`). -/
def Editor.default : Editor :=
  { lineBuffer := LineBuffer.default, cutBuffer := "", undoStack := [],
    redoStack := [], groupOpen := false }

/-- Characters of the edit buffer. -/
def Editor.chars (e : Editor) : List Char := e.lineBuffer.buffer.data

/-- Insertion point clamped into the buffer bounds. -/
def Editor.ip (e : Editor) : Nat := min e.lineBuffer.insertionPoint e.chars.length

/-- Replace buffer characters and insertion point at once. -/
def Editor.withChars (e : Editor) (l : List Char) (ip : Nat) : Editor :=
  { e with lineBuffer := { buffer := ⟨l⟩, insertionPoint := ip } }

def Editor.line_buffer (e : Editor) : LineBuffer := e.lineBuffer

def Editor.set_line_buffer (e : Editor) (lb : LineBuffer) : Editor :=
  { e with lineBuffer := lb }

def Editor.get_buffer (e : Editor) : String := e.lineBuffer.buffer

def Editor.set_buffer (e : Editor) (s : String) : Editor :=
  { e with lineBuffer := { e.lineBuffer with buffer := s } }

def Editor.set_insertion_point (e : Editor) (pos : Nat) : Editor :=
  { e with lineBuffer := { e.lineBuffer with insertionPoint := pos } }

def Editor.offset (e : Editor) : Nat := e.lineBuffer.insertionPoint

def Editor.is_empty (e : Editor) : Bool := e.lineBuffer.buffer.isEmpty

def Editor.reset_undo_stack (e : Editor) : Editor :=
  { e with undoStack := [], redoStack := [], groupOpen := false }

/-- Undo checkpointing: a full checkpoint pushes a snapshot and closes the
coalescing group; a coalescing checkpoint merges into the open group
(replacing its snapshot), opening one if none is open. -/
def Editor.remember_undo_state (e : Editor) (full : Bool) : Editor :=
  if full then
    { e with undoStack := e.lineBuffer :: e.undoStack, groupOpen := false }
  else if e.groupOpen then
    { e with undoStack := e.lineBuffer :: e.undoStack.tail }
  else
    { e with undoStack := e.lineBuffer :: e.undoStack, groupOpen := true }

def Editor.undo (e : Editor) : Editor :=
  match e.undoStack with
  | [] => e
  | lb :: rest =>
      { e with lineBuffer := lb, undoStack := rest,
               redoStack := e.lineBuffer :: e.redoStack }

def Editor.redo (e : Editor) : Editor :=
  match e.redoStack with
  | [] => e
  | lb :: rest =>
      { e with lineBuffer := lb, redoStack := rest,
               undoStack := e.lineBuffer :: e.undoStack }

def Editor.insert_char (e : Editor) (c : Char) : Editor :=
  e.withChars (e.chars.take e.ip ++ c :: e.chars.drop e.ip) (e.ip + 1)

def Editor.backspace (e : Editor) : Editor :=
  if e.ip = 0 then e
  else e.withChars (e.chars.take (e.ip - 1) ++ e.chars.drop e.ip) (e.ip - 1)

def Editor.delete (e : Editor) : Editor :=
  e.withChars (e.chars.take e.ip ++ e.chars.drop (e.ip + 1)) e.ip

def Editor.clear (e : Editor) : Editor := e.withChars [] 0

def Editor.clear_to_end (e : Editor) : Editor :=
  e.withChars (e.chars.take e.ip) e.ip

/-- Cut the character range `[a, b)` into the cut buffer, cursor to `a`. -/
def Editor.cutRange (e : Editor) (a b : Nat) : Editor :=
  let cut := (e.chars.drop a).take (b - a)
  { e.withChars (e.chars.take a ++ e.chars.drop b) a with cutBuffer := ⟨cut⟩ }

/-- Delete (without cutting) the character range `[a, b)`, cursor to `a`. -/
def Editor.deleteRange (e : Editor) (a b : Nat) : Editor :=
  e.withChars (e.chars.take a ++ e.chars.drop b) a

def Editor.backspace_word (e : Editor) : Editor :=
  e.deleteRange (wordLeftIndex e.chars e.ip) e.ip

def Editor.delete_word (e : Editor) : Editor :=
  e.deleteRange e.ip (wordRightIndex e.chars e.ip)

def Editor.clear_to_line_end (e : Editor) : Editor :=
  e.deleteRange e.ip (lineEndIndex e.chars e.ip)

def Editor.move_to_start (e : Editor) : Editor :=
  e.withChars e.chars 0

def Editor.move_to_end (e : Editor) : Editor :=
  e.withChars e.chars e.chars.length

def Editor.move_to_line_start (e : Editor) : Editor :=
  e.withChars e.chars (lineStartIndex e.chars e.ip)

def Editor.move_to_line_end (e : Editor) : Editor :=
  e.withChars e.chars (lineEndIndex e.chars e.ip)

def Editor.move_left (e : Editor) : Editor :=
  e.withChars e.chars (e.ip - 1)

def Editor.move_right (e : Editor) : Editor :=
  e.withChars e.chars (min (e.ip + 1) e.chars.length)

def Editor.move_word_left (e : Editor) : Editor :=
  e.withChars e.chars (wordLeftIndex e.chars e.ip)

def Editor.move_word_right (e : Editor) : Editor :=
  e.withChars e.chars (wordRightIndex e.chars e.ip)

def Editor.cut_current_line (e : Editor) : Editor :=
  e.cutRange (lineStartIndex e.chars e.ip)
    (min (lineEndIndex e.chars e.ip + 1) e.chars.length)

def Editor.cut_from_start (e : Editor) : Editor := e.cutRange 0 e.ip

def Editor.cut_from_end (e : Editor) : Editor := e.cutRange e.ip e.chars.length

def Editor.cut_word_left (e : Editor) : Editor :=
  e.cutRange (wordLeftIndex e.chars e.ip) e.ip

def Editor.cut_word_right (e : Editor) : Editor :=
  e.cutRange e.ip (wordRightIndex e.chars e.ip)

def Editor.cut_from_line_start (e : Editor) : Editor :=
  e.cutRange (lineStartIndex e.chars e.ip) e.ip

def Editor.cut_to_line_end (e : Editor) : Editor :=
  e.cutRange e.ip (lineEndIndex e.chars e.ip)

def Editor.insert_cut_buffer_before (e : Editor) : Editor :=
  e.withChars (e.chars.take e.ip ++ e.cutBuffer.data ++ e.chars.drop e.ip)
    (e.ip + e.cutBuffer.data.length)

def Editor.insert_cut_buffer_after (e : Editor) : Editor :=
  e.withChars
    (e.chars.take (min (e.ip + 1) e.chars.length) ++ e.cutBuffer.data
      ++ e.chars.drop (min (e.ip + 1) e.chars.length))
    (min (e.ip + 1) e.chars.length + e.cutBuffer.data.length)

/-- Apply a character transformation to the range `[a, b)`. -/
def Editor.mapRange (e : Editor) (a b : Nat) (f : Char → Char) : Editor :=
  e.withChars
    (e.chars.take a ++ ((e.chars.drop a).take (b - a)).map f ++ e.chars.drop b)
    e.ip

def Editor.uppercase_word (e : Editor) : Editor :=
  e.mapRange e.ip (wordRightIndex e.chars e.ip) Char.toUpper

def Editor.lowercase_word (e : Editor) : Editor :=
  e.mapRange e.ip (wordRightIndex e.chars e.ip) Char.toLower

def Editor.capitalize_char (e : Editor) : Editor :=
  (e.mapRange e.ip (min (e.ip + 1) e.chars.length) Char.toUpper).withChars
    ((e.mapRange e.ip (min (e.ip + 1) e.chars.length) Char.toUpper).chars)
    (min (e.ip + 1) e.chars.length)

/-- Word-boundary swap; the word-boundary algorithms of the text buffer are
explicitly out of the scope of the spec, so the model keeps the buffer
unchanged. -/
def Editor.swap_words (e : Editor) : Editor := e

def Editor.swap_graphemes (e : Editor) : Editor :=
  if 1 ≤ e.ip ∧ e.ip < e.chars.length then
    e.withChars
      ((e.chars.set (e.ip - 1) (e.chars.getD e.ip ' ')).set e.ip
        (e.chars.getD (e.ip - 1) ' '))
      e.ip
  else e

/-- Absolute index of the first occurrence of `c` strictly right of `ip`. -/
def findCharRight (l : List Char) (ip : Nat) (c : Char) : Option Nat :=
  ((l.drop (ip + 1)).findIdx? (fun x => x = c)).map (fun k => ip + 1 + k)

/-- Absolute index of the last occurrence of `c` strictly left of `ip`. -/
def findCharLeft (l : List Char) (ip : Nat) (c : Char) : Option Nat :=
  ((List.range ip).filter (fun j => l.getD j ' ' = c)).getLast?

def Editor.cut_right_until_char (e : Editor) (c : Char) (before : Bool) : Editor :=
  match findCharRight e.chars e.ip c with
  | some j => e.cutRange e.ip (if before then j else j + 1)
  | Option.none => e

def Editor.move_right_until_char (e : Editor) (c : Char) (before : Bool) : Editor :=
  match findCharRight e.chars e.ip c with
  | some j => e.withChars e.chars (if before then j - 1 else j)
  | Option.none => e

def Editor.cut_left_until_char (e : Editor) (c : Char) (before : Bool) : Editor :=
  match findCharLeft e.chars e.ip c with
  | some j => e.cutRange (if before then j + 1 else j) e.ip
  | Option.none => e

def Editor.move_left_until_char (e : Editor) (c : Char) (before : Bool) : Editor :=
  match findCharLeft e.chars e.ip c with
  | some j => e.withChars e.chars (if before then j + 1 else j)
  | Option.none => e

def Editor.is_cursor_at_first_line (e : Editor) : Bool :=
  ¬ (e.chars.take e.ip).contains '\n'

def Editor.is_cursor_at_last_line (e : Editor) : Bool :=
  ¬ (e.chars.drop e.ip).contains '\n'

def Editor.move_line_up (e : Editor) : Editor :=
  e.withChars e.chars (lineStartIndex e.chars e.ip - 1)

def Editor.move_line_down (e : Editor) : Editor :=
  e.withChars e.chars (min (lineEndIndex e.chars e.ip + 1) e.chars.length)

/-! ### History-store collaborator

The `FileBackedHistory` store is an external collaborator; its code is not
among the sources.  It is modelled from the spec contract (§6: `append`,
`back`, `forward`, `set_navigation`, `get_navigation`, `string_at_cursor`,
`iter_chronologic`) together with the behaviour §4.4 ascribes to it:
back/forward only consider entries matching the active query; stepping back
past the oldest match finds no result and leaves the cursor where it was;
stepping forward past the newest match moves the cursor to the
"no further history / present" sentinel where `string_at_cursor` is `none`
(the engine source itself relies on that sentinel: the `PrefixSearch`
fallback branch of `update_buffer_from_history` and the compensating
`back()` after a failed `forward()` in `handle_history_search_event` are
both dead code without it). -/

/-- String containment test used by the substring query. -/
def strContains (hay needle : String) : Bool :=
  decide (needle.data <:+: hay.data)

/-- Does a history entry match the active navigation query? -/
def HistoryNavigationQuery.matchesEntry : HistoryNavigationQuery → String → Bool
  | .normal _, _ => true
  | .prefixSearch p, entry => p.data.isPrefixOf entry.data
  | .substringSearch needle, entry => strContains entry needle

/-- Modelled from the spec: the history store — an append-only chronological
log (`entries`, oldest first), a navigation cursor (`some i` points at entry
`i`; `none` is the "present" sentinel past the newest entry), and the active
navigation query. -/
structure HistoryStore where
  entries : List String
  cursor : Option Nat
  navigation : HistoryNavigationQuery
deriving DecidableEq, Repr

/-- Fresh history store holding the given chronological entries, cursor at
the present sentinel, plain navigation. -/
def HistoryStore.fresh (entries : List String) : HistoryStore :=
  { entries := entries, cursor := Option.none,
    navigation := .normal LineBuffer.default }

/-- Does the entry at index `i` match the active query? -/
def HistoryStore.matchesAt (h : HistoryStore) (i : Nat) : Bool :=
  match h.entries.get? i with
  | some entry => h.navigation.matchesEntry entry
  | Option.none => false

def HistoryStore.string_at_cursor (h : HistoryStore) : Option String :=
  h.cursor.bind h.entries.get?

def HistoryStore.get_navigation (h : HistoryStore) : HistoryNavigationQuery :=
  h.navigation

def HistoryStore.set_navigation (h : HistoryStore) (q : HistoryNavigationQuery) :
    HistoryStore :=
  { h with navigation := q, cursor := Option.none }

def HistoryStore.append (h : HistoryStore) (line : String) : HistoryStore :=
  { h with entries := h.entries ++ [line], cursor := Option.none }

/-- Step back to the nearest older entry matching the query; stay put when
none exists. -/
def HistoryStore.back (h : HistoryStore) : HistoryStore :=
  let bound := match h.cursor with
               | some i => i
               | Option.none => h.entries.length
  match ((List.range bound).filter h.matchesAt).getLast? with
  | some i => { h with cursor := some i }
  | Option.none => h

/-- Step forward to the nearest newer entry matching the query; move to the
present sentinel when none exists. -/
def HistoryStore.forward (h : HistoryStore) : HistoryStore :=
  match h.cursor with
  | Option.none => h
  | some i =>
      match ((List.range h.entries.length).filter
              (fun j => i < j ∧ h.matchesAt j)).head? with
      | some j => { h with cursor := some j }
      | Option.none => { h with cursor := Option.none }

/-- Modelled from the spec: `remove_last_grapheme` of `text_manipulation`
(not among the sources) — backspace "removes the last multi-byte character
cluster"; at character level this drops the last character. -/
def remove_last_grapheme (s : String) : String := ⟨s.data.dropLast⟩

/-! ### The engine orchestrator (`engine.rs`)

State and functions below are embedded from `Reedline` in `src/engine.rs`.
Painter operations (repaints, wrap handling, resize propagation to the
painter) are pure output and are dropped; the validator, the tab completion
handler and the current hint of the hinter are passed as parameters, which
mirrors the `Box<dyn ...>` collaborator fields.  `update_buffer_from_history`
returns an `Option`: `Option.none` models the `todo!()` abort of its
`SubstringSearch` branch, and propagates through the handlers. -/

/-- Engine state: the editor, the history store handle and the input mode
(the collaborator-configuration fields of `Reedline` are parameters of the
step functions instead). -/
structure Engine where
  editor : Editor
  history : HistoryStore
  inputMode : InputMode
deriving DecidableEq, Repr

/-- Engine state produced by `Reedline::create()`: default editor, empty
history, `InputMode::Regular`. -/
def Engine.create : Engine :=
  { editor := Editor.default, history := HistoryStore.fresh [],
    inputMode := .regular }

/-- Embeds `Reedline::append_to_history`. -/
def append_to_history (s : Engine) : Engine :=
  { s with history := s.history.append s.editor.get_buffer }

/-- Embeds `Reedline::set_history_navigation_based_on_line_buffer`: empty
buffer or cursor not at the end selects bash-style `Normal` walking seeded
with the current line buffer; otherwise prefix search seeded from the
buffer. -/
def set_history_navigation_based_on_line_buffer (s : Engine) : Engine :=
  if s.editor.is_empty ∨ s.editor.offset ≠ s.editor.get_buffer.length then
    { s with history :=
        s.history.set_navigation (.normal s.editor.line_buffer) }
  else
    { s with history :=
        s.history.set_navigation (.prefixSearch s.editor.get_buffer) }

/-- Embeds `Reedline::enter_history_search`. -/
def enter_history_search (s : Engine) : Engine :=
  { s with inputMode := .historySearch,
           history := s.history.set_navigation (.substringSearch "") }

/-- Embeds one iteration of the loop in `Reedline::run_history_commands`. -/
def run_history_command (s : Engine) : EditCommand → Engine
  | .insertChar c =>
      match s.history.get_navigation with
      | .substringSearch substring =>
          { s with history :=
              (s.history.set_navigation
                (.substringSearch (substring.push c))).back }
      | _ =>
          { s with history :=
              (s.history.set_navigation
                (.substringSearch ⟨[c]⟩)).back }
  | .backspace =>
      match s.history.get_navigation with
      | .substringSearch substring =>
          { s with history :=
              (s.history.set_navigation
                (.substringSearch (remove_last_grapheme substring))).back }
      | _ => s
  | _ => { s with inputMode := .regular }

/-- Embeds `Reedline::run_history_commands`. -/
def run_history_commands (s : Engine) (commands : List EditCommand) : Engine :=
  commands.foldl run_history_command s

/-- Embeds `Reedline::update_buffer_from_history`; `Option.none` models the
`todo!()` of the unhandled `SubstringSearch` branch. -/
def update_buffer_from_history (s : Engine) : Option Engine :=
  match s.history.get_navigation with
  | .normal original =>
      match s.history.string_at_cursor with
      | some buffer_to_paint =>
          some { s with editor :=
                   ((s.editor.set_buffer buffer_to_paint).set_insertion_point
                     buffer_to_paint.length) }
      | Option.none =>
          some { s with editor := s.editor.set_line_buffer original }
  | .prefixSearch p =>
      match s.history.string_at_cursor with
      | some prefix_result =>
          some { s with editor :=
                   ((s.editor.set_buffer prefix_result).set_insertion_point
                     prefix_result.length) }
      | Option.none =>
          some { s with editor :=
                   ((s.editor.set_buffer p).set_insertion_point p.length) }
  | .substringSearch _ => Option.none

/-- Embeds `Reedline::previous_history`. -/
def previous_history (s : Engine) : Option Engine :=
  let s := if s.inputMode ≠ .historyTraversal then
             set_history_navigation_based_on_line_buffer
               { s with inputMode := .historyTraversal }
           else s
  update_buffer_from_history { s with history := s.history.back }

/-- Embeds `Reedline::next_history`. -/
def next_history (s : Engine) : Option Engine :=
  let s := if s.inputMode ≠ .historyTraversal then
             set_history_navigation_based_on_line_buffer
               { s with inputMode := .historyTraversal }
           else s
  update_buffer_from_history { s with history := s.history.forward }

/-- Embeds the command dispatch of the loop body in
`Reedline::run_edit_commands` (the per-command buffer mutation; the
wrap-repaint calls are painter output and are dropped). -/
def run_one_edit_command (e : Editor) : EditCommand → Editor
  | .moveToStart => e.move_to_start
  | .moveToEnd => e.move_to_end
  | .moveToLineStart => e.move_to_line_start
  | .moveToLineEnd => e.move_to_line_end
  | .moveLeft => e.move_left
  | .moveRight => e.move_right
  | .moveWordLeft => e.move_word_left
  | .moveWordRight => e.move_word_right
  | .insertChar c => e.insert_char c
  | .insertString str => str.data.foldl Editor.insert_char e
  | .backspace => e.backspace
  | .delete => e.delete
  | .backspaceWord => e.backspace_word
  | .deleteWord => e.delete_word
  | .clear => e.clear
  | .clearToLineEnd => e.clear_to_line_end
  | .cutCurrentLine => e.cut_current_line
  | .cutFromStart => e.cut_from_start
  | .cutToEnd => e.cut_from_end
  | .cutWordLeft => e.cut_word_left
  | .cutWordRight => e.cut_word_right
  | .pasteCutBufferBefore => e.insert_cut_buffer_before
  | .pasteCutBufferAfter => e.insert_cut_buffer_after
  | .uppercaseWord => e.uppercase_word
  | .lowercaseWord => e.lowercase_word
  | .capitalizeChar => e.capitalize_char
  | .swapWords => e.swap_words
  | .swapGraphemes => e.swap_graphemes
  | .undo => e.undo
  | .redo => e.redo
  | .cutRightUntil c => e.cut_right_until_char c false
  | .cutRightBefore c => e.cut_right_until_char c true
  | .moveRightUntil c => e.move_right_until_char c false
  | .moveRightBefore c => e.move_right_until_char c true
  | .cutLeftUntil c => e.cut_left_until_char c false
  | .cutLeftBefore c => e.cut_left_until_char c true
  | .moveLeftUntil c => e.move_left_until_char c false
  | .moveLeftBefore c => e.move_left_until_char c true
  | .cutFromLineStart => e.cut_from_line_start
  | .cutToLineEnd => e.cut_to_line_end

/-- One loop iteration of `Reedline::run_edit_commands`: apply the buffer
mutation, then the undo policy of the command. -/
def run_edit_command_step (e : Editor) (command : EditCommand) : Editor :=
  let e := run_one_edit_command e command
  match command.undo_behavior with
  | .ignore => e
  | .full => e.remember_undo_state true
  | .coalesce => e.remember_undo_state false

/-- Embeds `Reedline::run_edit_commands`: in `HistoryTraversal` the buffer
is first set from the current result when the active query is `Normal` and
has one, the mode is demoted to `Regular`, and only then are the commands
applied. -/
def run_edit_commands (s : Engine) (commands : List EditCommand) : Engine :=
  let s :=
    if s.inputMode = .historyTraversal then
      let s :=
        match s.history.get_navigation with
        | .normal _ =>
            match s.history.string_at_cursor with
            | some string => { s with editor := s.editor.set_buffer string }
            | Option.none => s
        | _ => s
      { s with inputMode := .regular }
    else s
  { s with editor := commands.foldl run_edit_command_step s.editor }

/-- Embeds `Reedline::up_command`. -/
def up_command (s : Engine) : Option Engine :=
  if s.editor.is_cursor_at_first_line then previous_history s
  else some { s with editor := s.editor.move_line_up }

/-- Embeds `Reedline::down_command`. -/
def down_command (s : Engine) : Option Engine :=
  if s.editor.is_cursor_at_last_line then next_history s
  else some { s with editor := s.editor.move_line_down }

/-- Embeds `Reedline::handle_history_search_event` (painter calls dropped;
the `Repaint` branch only repaints, the `Resize` branch only notifies the
painter).  This handler is not recursive: its `Paste` and `Multiple`
branches ignore the wrapped events entirely. -/
def handle_history_search_event (s : Engine) :
    ReedlineEvent → Engine × Option Signal
  | .ctrlD =>
      if s.editor.is_empty then
        ({ s with inputMode := .regular,
                  editor := s.editor.reset_undo_stack }, some .ctrlD)
      else
        (run_history_commands s [.delete], Option.none)
  | .ctrlC => ({ s with inputMode := .regular }, some .ctrlC)
  | .clearScreen => (s, some .ctrlL)
  | .enter | .handleTab =>
      let s :=
        match s.history.string_at_cursor with
        | some string =>
            { s with editor :=
                ((s.editor.set_buffer string).remember_undo_state true) }
        | Option.none => s
      ({ s with inputMode := .regular }, Option.none)
  | .edit commands => (run_history_commands s commands, Option.none)
  | .mouse => (s, Option.none)
  | .resize _ _ => (s, Option.none)
  | .repaint => (s, Option.none)
  | .previousHistory | .up | .searchHistory =>
      ({ s with history := s.history.back }, Option.none)
  | .nextHistory | .down =>
      let h := s.history.forward
      let h := if h.string_at_cursor.isNone then h.back else h
      ({ s with history := h }, Option.none)
  | .paste _ => (s, Option.none)
  | .multiple _ => (s, Option.none)
  | .none => (s, Option.none)

/-- Embeds the `ReedlineEvent::Edit` sub-loop of the `Paste` branch of
`handle_editor_event`: an `InsertChar` is applied directly to the editor
(bypassing `run_edit_commands` and its undo bookkeeping), any other command
goes through `run_edit_commands` one command at a time. -/
def paste_edit_commands (s : Engine) (commands : List EditCommand) : Engine :=
  commands.foldl
    (fun s command =>
      match command with
      | .insertChar c => { s with editor := s.editor.insert_char c }
      | x => run_edit_commands s [x])
    s

mutual

/-- Embeds `Reedline::handle_editor_event` (painter calls dropped).  The
validator, the tab completion handler and the current hint of the hinter
are parameters, mirroring the collaborator fields of `Reedline`.  The
result is `Option.none` when a history step reaches the `todo!()` branch of
`update_buffer_from_history`. -/
def handle_editor_event (v : String → ValidationResult)
    (tab : LineBuffer → LineBuffer) (hint : String) (s : Engine) :
    ReedlineEvent → Option (Engine × Option Signal)
  | .handleTab =>
      if hint ≠ "" ∧ s.inputMode = .regular then
        let s := { s with editor := s.editor.clear_to_end }
        some (run_edit_commands s [.insertString hint], Option.none)
      else
        some ({ s with editor :=
                  s.editor.set_line_buffer (tab s.editor.line_buffer) },
              Option.none)
  | .ctrlD =>
      if s.editor.is_empty then
        some ({ s with editor := s.editor.reset_undo_stack }, some .ctrlD)
      else
        some (run_edit_commands s [.delete], Option.none)
  | .ctrlC =>
      let s := run_edit_commands s [.clear]
      some ({ s with editor := s.editor.reset_undo_stack }, some .ctrlC)
  | .clearScreen => some (s, some .ctrlL)
  | .enter =>
      let buffer := s.editor.get_buffer
      if v buffer = .complete then
        let s := append_to_history s
        let s := run_edit_commands s [.clear]
        some ({ s with editor := s.editor.reset_undo_stack },
              some (.success buffer))
      else
        some (run_edit_commands s [.insertChar '\n'], Option.none)
  | .edit commands => some (run_edit_commands s commands, Option.none)
  | .mouse => some (s, Option.none)
  | .resize _ _ => some (s, Option.none)
  | .repaint => some (s, Option.none)
  | .previousHistory => (previous_history s).map (fun s => (s, Option.none))
  | .nextHistory => (next_history s).map (fun s => (s, Option.none))
  | .up => (up_command s).map (fun s => (s, Option.none))
  | .down => (down_command s).map (fun s => (s, Option.none))
  | .searchHistory =>
      some (enter_history_search
              { s with editor := s.editor.remember_undo_state true },
            Option.none)
  | .paste events => paste_events_loop v tab hint s Option.none events
  | .multiple events => multiple_events_loop v tab hint s Option.none events
  | .none => some (s, Option.none)

/-- Embeds the `for event in events` loop of the `Paste` branch of
`handle_editor_event`; `latest_signal` is overwritten by every non-`Edit`
wrapped event and `Edit` batches go through `paste_edit_commands`. -/
def paste_events_loop (v : String → ValidationResult)
    (tab : LineBuffer → LineBuffer) (hint : String) (s : Engine)
    (latest_signal : Option Signal) :
    List ReedlineEvent → Option (Engine × Option Signal)
  | [] => some (s, latest_signal)
  | .edit commands :: rest =>
      paste_events_loop v tab hint (paste_edit_commands s commands)
        latest_signal rest
  | event :: rest =>
      match handle_editor_event v tab hint s event with
      | some (s1, sig) => paste_events_loop v tab hint s1 sig rest
      | Option.none => Option.none

/-- Embeds the `try_fold` of the `Multiple` branch of `handle_editor_event`:
every wrapped event is dispatched through `handle_editor_event` and only the
signal of the last one is kept. -/
def multiple_events_loop (v : String → ValidationResult)
    (tab : LineBuffer → LineBuffer) (hint : String) (s : Engine)
    (latest_signal : Option Signal) :
    List ReedlineEvent → Option (Engine × Option Signal)
  | [] => some (s, latest_signal)
  | event :: rest =>
      match handle_editor_event v tab hint s event with
      | some (s1, sig) => multiple_events_loop v tab hint s1 sig rest
      | Option.none => Option.none

end

/-- Embeds `Reedline::handle_event`: `HistorySearch` mode routes to the
search handler, every other mode to the editor handler. -/
def handle_event (v : String → ValidationResult)
    (tab : LineBuffer → LineBuffer) (hint : String) (s : Engine)
    (ev : ReedlineEvent) : Option (Engine × Option Signal) :=
  if s.inputMode = .historySearch then
    some (handle_history_search_event s ev)
  else
    handle_editor_event v tab hint s ev

/-! ### Burst classification (`read_line_helper`)

The inner poll loop of `Reedline::read_line_helper` drains a burst of raw
crossterm events, keeps only the latest resize, and either wraps the burst
as a paste (above `EVENTS_THRESHOLD` non-resize events) or merges
consecutive parsed edit batches.  The key-binding parser
(`edit_mode.parse_event`) is an external collaborator and is a parameter. -/

/-- Raw terminal events as seen by the drain loop: a resize notification or
any other event (keys, mouse, ...), opaque to the classifier and only ever
given to the key-binding parser. -/
inductive CrosstermEvent where
  | resizeEvent (w h : Nat)
  | other (tag : Nat)
deriving DecidableEq, Repr

/-- Constant `EVENTS_THRESHOLD` from `engine.rs`. -/
def EVENTS_THRESHOLD : Nat := 10

/-- Embeds the `while event::poll` drain loop: the latest resize dimensions
are remembered separately and every other event is pushed onto
`crossterm_events` in arrival order. -/
def drain_events (burst : List CrosstermEvent) :
    Option (Nat × Nat) × List CrosstermEvent :=
  burst.foldl
    (fun acc ev =>
      match ev with
      | .resizeEvent x y => (some (x, y), acc.2)
      | x => (acc.1, acc.2 ++ [x]))
    (Option.none, [])

/-- Embeds `Reedline::handle_paste`: parse every drained event and wrap the
results in a single `Paste` event. -/
def handle_paste (parseKey : CrosstermEvent → ReedlineEvent)
    (crossterm_events : List CrosstermEvent) : ReedlineEvent :=
  .paste (crossterm_events.map parseKey)

/-- Embeds the below-threshold `for event in crossterm_events.drain(..)`
merge loop of `read_line_helper` together with the trailing
`if let Some(ec) = last_edit_commands` push: consecutive parsed `Edit`
batches accumulate in `last_edit_commands` and are flushed as one `Edit`
event when a non-`Edit` event or the end of the burst is reached. -/
def merge_parsed_events (parseKey : CrosstermEvent → ReedlineEvent)
    (last_edit_commands : Option (List EditCommand)) :
    List CrosstermEvent → List ReedlineEvent
  | [] =>
      match last_edit_commands with
      | some ec => [.edit ec]
      | Option.none => []
  | ev :: rest =>
      match last_edit_commands, parseKey ev with
      | Option.none, .edit ec => merge_parsed_events parseKey (some ec) rest
      | Option.none, other_event =>
          other_event :: merge_parsed_events parseKey Option.none rest
      | some last_ecs, .edit ec =>
          merge_parsed_events parseKey (some (last_ecs ++ ec)) rest
      | some last_ecs, other_event =>
          .edit last_ecs :: other_event ::
            merge_parsed_events parseKey Option.none rest

/-- Embeds one iteration of the outer event loop of `read_line_helper` on a
drained burst: the kept resize (if any) is queued first, then either a
single `Paste` wrapper (when the non-resize events exceed
`EVENTS_THRESHOLD`) or the merged parsed events. -/
def classify_burst (parseKey : CrosstermEvent → ReedlineEvent)
    (burst : List CrosstermEvent) : List ReedlineEvent :=
  let drained := drain_events burst
  let resize_events :=
    match drained.1 with
    | some (x, y) => [ReedlineEvent.resize x y]
    | Option.none => []
  if drained.2.length > EVENTS_THRESHOLD then
    resize_events ++ [handle_paste parseKey drained.2]
  else
    resize_events ++ merge_parsed_events parseKey Option.none drained.2

/-! ### Spans, completion and hinting (`completion/base.rs`,
`completion/default.rs`, `hinter.rs`) -/

/-- A span of source code with positions in bytes (`Span` in
`completion/base.rs`; the `end` field is called `stop` since `end` is a
reserved word). -/
structure Span where
  start : Nat
  stop : Nat
deriving DecidableEq, Repr

/-- Embeds `Span::new`; `Option.none` models the fatal
`assert!(end >= start)` panic. -/
def Span.new (start stop : Nat) : Option Span :=
  if stop ≥ start then some { start := start, stop := stop }
  else Option.none

/-- Embeds `HistoryCompleter::complete`: for a non-empty line, every history
entry starting with `line[0..pos]` contributes
`(Span \x7b start: pos, end: line.len() \x7d, hist[pos..])`, and only the
last such completion is kept. -/
def history_completer_complete (history : List String) (line : String)
    (pos : Nat) : List (Span × String) :=
  if line.isEmpty then []
  else
    let completions :=
      (history.filter
        (fun hist => (line.data.take pos).isPrefixOf hist.data)).map
        (fun hist =>
          (({ start := pos, stop := line.length } : Span),
           (⟨hist.data.drop pos⟩ : String)))
    match completions.getLast? with
    | some last => [last]
    | Option.none => completions

/-- Embeds the hint computation of `DefaultHinter::handle` for a hinter in
history mode (`with_history()`): when the cursor is at the end of the line
or `inside_line` is set, take the first completion of the
`HistoryCompleter` over the chronological history and remove the first
`span.end - span.start` bytes of its replacement text with
`replace_range`.  `Option.none` models the `replace_range` panic when that
range exceeds the replacement bounds; styling, ANSI stripping and the
newline rewrite of the returned hint are presentation and are dropped. -/
def default_hinter_handle (inside_line : Bool) (history : List String)
    (line : String) (pos : Nat) : Option String :=
  if pos = line.length ∨ inside_line then
    match history_completer_complete history line pos with
    | [] => some ""
    | (span, repl) :: _ =>
        if span.stop - span.start ≤ repl.length then
          some ⟨repl.data.drop (span.stop - span.start)⟩
        else Option.none
  else some ""

/-! ## Concrete states used by witnesses and counterexamples -/

/-- Editor holding the given buffer with the cursor at the given offset. -/
def mkEditor (buf : String) (ip : Nat) : Editor :=
  { Editor.default with lineBuffer := { buffer := buf, insertionPoint := ip } }

/-- Engine in `HistorySearch` mode with an empty substring needle but a
non-empty line buffer (the user typed "hi" and then entered reverse
search). -/
def searchStateHi : Engine :=
  { editor := mkEditor "hi" 2,
    history := (HistoryStore.fresh []).set_navigation (.substringSearch ""),
    inputMode := .historySearch }

/-- Engine in `HistoryTraversal` mode with an active prefix query whose
current result is "ls -l" while the line buffer holds "XYZ". -/
def traversalPrefixState : Engine :=
  { editor := mkEditor "XYZ" 3,
    history := { entries := ["ls -la", "ls -l", "pwd"], cursor := some 1,
                 navigation := .prefixSearch "ls" },
    inputMode := .historyTraversal }

/-- Engine in `HistoryTraversal` mode displaying the prefix-search result
"ls -l" (the state reached from buffer "ls" after one backward step). -/
def traversalDisplayedState : Engine :=
  { editor := mkEditor "ls -l" 5,
    history := { entries := ["ls -la", "ls -l", "pwd"], cursor := some 1,
                 navigation := .prefixSearch "ls" },
    inputMode := .historyTraversal }

/-! ## Claim C10: Span construction -/

/-- C10: for every pair `(start, end)` with `end < start`, `Span::new`
fails fatally (the `assert!` panic, modelled as `Option.none`); for every
pair with `end >= start` it succeeds and stores exactly the given values. -/
theorem c10_span_new_spec (start stop : Nat) :
    (stop < start → Span.new start stop = Option.none) ∧
    (start ≤ stop →
      Span.new start stop = some { start := start, stop := stop }) := by
  constructor <;> intro h <;> simp [Span.new] <;> omega

/-- Witness for C10 at `(3, 1)` and `(1, 3)`. -/
theorem c10_span_new_spec_witness :
    Span.new 3 1 = Option.none ∧
    Span.new 1 3 = some { start := 1, stop := 3 } :=
  ⟨(c10_span_new_spec 3 1).1 (by decide), (c10_span_new_spec 1 3).2 (by decide)⟩

/-! ## Claim C5: hint replacement range

The claim says results whose replacement length does not exceed the span
width are discarded by the hinting caller, so the `replace_range` in
`DefaultHinter::handle` is always in bounds.  `DefaultHinter::handle`
performs no such filtering, and `HistoryCompleter::complete` (used for
history hinting) performs none either, so with the `inside_line` option a
history entry shorter than the line yields a replacement shorter than the
span width and `replace_range` aborts on an out-of-bounds range. -/

/-- C5: concrete failing input for the hinting path.  With history hinting
and `inside_line`, line `"abc"`, cursor 1 and history `["ab"]`, the history
completer returns the unfiltered completion `(Span (1, 3), "b")` whose
replacement length 1 is below the span width 2, and the hint computation
aborts in `replace_range` (modelled `Option.none`). -/
theorem c5_hinter_out_of_bounds :
    history_completer_complete ["ab"] "abc" 1 =
      [({ start := 1, stop := 3 }, "b")] ∧
    default_hinter_handle true ["ab"] "abc" 1 = Option.none := by
  constructor <;> rfl

/-! ## Claims C2 and C8: burst classification

Specification-side descriptions of the classifier output, proved equal to
the embedded fold/loop code. -/

def CrosstermEvent.isResizeEvent : CrosstermEvent → Bool
  | .resizeEvent _ _ => true
  | .other _ => false

/-- The non-resize events of a burst, in arrival order. -/
def non_resize_events (burst : List CrosstermEvent) : List CrosstermEvent :=
  burst.filter (fun e => !e.isResizeEvent)

/-- Dimensions of the most recent resize notification of a burst. -/
def last_resize_dims : List CrosstermEvent → Option (Nat × Nat)
  | [] => Option.none
  | .resizeEvent w h :: rest =>
      match last_resize_dims rest with
      | some d => some d
      | Option.none => some (w, h)
  | .other _ :: rest => last_resize_dims rest

def ReedlineEvent.isResize : ReedlineEvent → Bool
  | .resize _ _ => true
  | _ => false

/-- Specification-side merge: consecutive `Edit` batches are combined into
one batch, all other events are kept as they are. -/
def mergeEditRuns : List ReedlineEvent → List ReedlineEvent
  | [] => []
  | .edit a :: rest =>
      match mergeEditRuns rest with
      | .edit b :: tail => .edit (a ++ b) :: tail
      | other_events => .edit a :: other_events
  | x :: rest => x :: mergeEditRuns rest

theorem mergeEditRuns_edit_edit (a b : List EditCommand)
    (l : List ReedlineEvent) :
    mergeEditRuns (.edit a :: .edit b :: l) =
      mergeEditRuns (.edit (a ++ b) :: l) := by
  simp only [mergeEditRuns]
  cases h : mergeEditRuns l with
  | nil => simp
  | cons x tail => cases x <;> simp [List.append_assoc]

/-- The merge loop of `read_line_helper` computes exactly the
specification-side run merge (with a pending batch prepended). -/
theorem merge_parsed_events_eq (parseKey : CrosstermEvent → ReedlineEvent) :
    ∀ (evts : List CrosstermEvent) (acc : Option (List EditCommand)),
      merge_parsed_events parseKey acc evts =
        mergeEditRuns
          ((match acc with
            | some a => [ReedlineEvent.edit a]
            | Option.none => []) ++ evts.map parseKey) := by
  intro evts
  induction evts with
  | nil =>
      intro acc
      cases acc <;> simp [merge_parsed_events, mergeEditRuns]
  | cons ev rest IH =>
      intro acc
      cases acc with
      | none =>
          cases hp : parseKey ev <;>
            simp [merge_parsed_events, hp, IH, mergeEditRuns]
      | some a =>
          cases hp : parseKey ev
          case edit ec =>
            have h2 := IH (some (a ++ ec))
            simp only [merge_parsed_events, hp, h2, List.map_cons,
              List.singleton_append, List.cons_append, List.nil_append]
            exact (mergeEditRuns_edit_edit a ec (rest.map parseKey)).symm
          all_goals
            simp [merge_parsed_events, hp, IH, mergeEditRuns]

/-- The drain loop keeps exactly the most recent resize dimensions and the
non-resize events in arrival order. -/
theorem drain_events_spec : ∀ burst : List CrosstermEvent,
    drain_events burst = (last_resize_dims burst, non_resize_events burst) := by
  have go : ∀ (burst : List CrosstermEvent) (r0 : Option (Nat × Nat))
      (l0 : List CrosstermEvent),
      burst.foldl
        (fun acc ev =>
          match ev with
          | .resizeEvent x y => (some (x, y), acc.2)
          | x => (acc.1, acc.2 ++ [x]))
        (r0, l0) =
        ((match last_resize_dims burst with
          | some d => some d
          | Option.none => r0),
         l0 ++ non_resize_events burst) := by
    intro burst
    induction burst with
    | nil => intro r0 l0; simp [last_resize_dims, non_resize_events]
    | cons ev rest IH =>
        intro r0 l0
        cases ev with
        | resizeEvent x y =>
            simp only [List.foldl_cons, IH, last_resize_dims,
              non_resize_events, List.filter_cons, CrosstermEvent.isResizeEvent,
              Bool.not_true, Bool.false_eq_true, if_false]
            cases last_resize_dims rest <;> simp
        | other n =>
            simp only [List.foldl_cons, IH, last_resize_dims,
              non_resize_events, List.filter_cons, CrosstermEvent.isResizeEvent,
              Bool.not_false, if_true, List.append_assoc, List.singleton_append]
  intro burst
  have h := go burst Option.none []
  simp only [drain_events, h, List.nil_append]
  cases last_resize_dims burst <;> simp

/-- C2: a drained burst with more than `EVENTS_THRESHOLD` (= 10) non-resize
events classifies as exactly one `Paste` wrapper holding the parsed
sub-events in order (after the optional coalesced resize); at or below the
threshold the parsed events are emitted with consecutive `Edit` batches
merged, and in particular a burst that parses entirely to edit batches
yields one single combined batch. -/
theorem c2_paste_classification (parseKey : CrosstermEvent → ReedlineEvent)
    (burst : List CrosstermEvent) :
    ((non_resize_events burst).length > EVENTS_THRESHOLD →
       classify_burst parseKey burst =
         (match last_resize_dims burst with
          | some (x, y) => [ReedlineEvent.resize x y]
          | Option.none => []) ++
         [.paste ((non_resize_events burst).map parseKey)]) ∧
    ((non_resize_events burst).length ≤ EVENTS_THRESHOLD →
       classify_burst parseKey burst =
         (match last_resize_dims burst with
          | some (x, y) => [ReedlineEvent.resize x y]
          | Option.none => []) ++
         mergeEditRuns ((non_resize_events burst).map parseKey)) ∧
    (∀ (cs : List (List EditCommand)),
       last_resize_dims burst = Option.none →
       (non_resize_events burst).length ≤ EVENTS_THRESHOLD →
       (non_resize_events burst).map parseKey = cs.map .edit →
       cs ≠ [] →
       classify_burst parseKey burst = [.edit cs.flatten]) := by
  have hall : ∀ (cs : List (List EditCommand)) (c0 : List EditCommand),
      mergeEditRuns (ReedlineEvent.edit c0 :: cs.map .edit) =
        [.edit (c0 ++ cs.flatten)] := by
    intro cs
    induction cs with
    | nil => intro c0; simp [mergeEditRuns]
    | cons d ds IH =>
        intro c0
        simp only [List.map_cons]
        rw [mergeEditRuns_edit_edit, IH, List.flatten_cons, List.append_assoc]
  refine ⟨?_, ?_, ?_⟩
  · intro h
    simp only [classify_burst, drain_events_spec, h, if_true, gt_iff_lt,
      handle_paste]
  · intro h
    have hnot : ¬ (non_resize_events burst).length > EVENTS_THRESHOLD := by
      omega
    simp only [classify_burst, drain_events_spec, hnot, if_false,
      merge_parsed_events_eq, List.nil_append]
  · intro cs h0 h1 h2 h3
    have hnot : ¬ (non_resize_events burst).length > EVENTS_THRESHOLD := by
      omega
    simp only [classify_burst, drain_events_spec, hnot, if_false,
      merge_parsed_events_eq, h0, List.nil_append, h2]
    cases cs with
    | nil => exact absurd rfl h3
    | cons c0 ds => simp [hall]

/-- Witness for C2: a burst of 11 raw key events, each parsing to a
one-command edit batch, yields exactly one `Paste` wrapper with 11 parsed
sub-events; a burst of 3 such events yields one single merged edit batch. -/
theorem c2_paste_classification_witness :
    classify_burst
        (fun _ => .edit [.insertChar 'a'])
        ((List.range 11).map .other) =
      [.paste (((List.range 11).map CrosstermEvent.other).map
        (fun _ => ReedlineEvent.edit [.insertChar 'a']))] ∧
    classify_burst
        (fun _ => .edit [.insertChar 'a'])
        ((List.range 3).map .other) =
      [.edit [.insertChar 'a', .insertChar 'a', .insertChar 'a']] := by
  constructor
  · exact (c2_paste_classification _ _).1 (by decide)
  · have h := (c2_paste_classification
      (fun _ => ReedlineEvent.edit [.insertChar 'a'])
      ((List.range 3).map .other)).2.2
      [[.insertChar 'a'], [.insertChar 'a'], [.insertChar 'a']]
      (by decide) (by decide) (by rfl) (by decide)
    simpa using h

theorem mergeEditRuns_no_resize :
    ∀ l : List ReedlineEvent, (∀ x ∈ l, x.isResize = false) →
      ∀ x ∈ mergeEditRuns l, x.isResize = false := by
  intro l
  induction l with
  | nil => intro _ x hx; simp [mergeEditRuns] at hx
  | cons e rest IH =>
      intro hl x hx
      have hrest : ∀ x ∈ rest, ReedlineEvent.isResize x = false :=
        fun y hy => hl y (List.mem_cons_of_mem _ hy)
      have hIH := IH hrest
      cases e with
      | edit a =>
          simp only [mergeEditRuns] at hx
          split at hx
          next b tail hm =>
            rcases List.mem_cons.mp hx with rfl | h
            · rfl
            · exact hIH x (hm ▸ List.mem_cons_of_mem _ h)
          next hm =>
            rcases List.mem_cons.mp hx with rfl | h
            · rfl
            · exact hIH x h
      | _ =>
          first
          | (simp only [mergeEditRuns] at hx
             rcases List.mem_cons.mp hx with rfl | h
             · exact hl _ (List.mem_cons_self _ _)
             · exact hIH x h)

/-- C8: for every drained burst, only the most recent resize notification
is kept: provided the key-binding parser never produces resize events
itself, the classified burst contains exactly one resize event — carrying
the final dimensions — when the burst had any resize, and none otherwise. -/
theorem c8_resize_coalescing (parseKey : CrosstermEvent → ReedlineEvent)
    (burst : List CrosstermEvent)
    (hp : ∀ e, (parseKey e).isResize = false) :
    (classify_burst parseKey burst).filter ReedlineEvent.isResize =
      (match last_resize_dims burst with
       | some (x, y) => [ReedlineEvent.resize x y]
       | Option.none => []) := by
  have hmap : ∀ x ∈ (non_resize_events burst).map parseKey,
      ReedlineEvent.isResize x = false := by
    intro x hx
    rcases List.mem_map.mp hx with ⟨e, _, he⟩
    exact he ▸ hp e
  have htail : ∀ x ∈ (if (non_resize_events burst).length > EVENTS_THRESHOLD
      then [ReedlineEvent.paste ((non_resize_events burst).map parseKey)]
      else mergeEditRuns ((non_resize_events burst).map parseKey)),
      ReedlineEvent.isResize x = false := by
    split
    · intro x hx
      simp at hx
      subst hx; rfl
    · exact mergeEditRuns_no_resize _ hmap
  have hclass : classify_burst parseKey burst =
      (match last_resize_dims burst with
       | some (x, y) => [ReedlineEvent.resize x y]
       | Option.none => []) ++
      (if (non_resize_events burst).length > EVENTS_THRESHOLD
       then [ReedlineEvent.paste ((non_resize_events burst).map parseKey)]
       else mergeEditRuns ((non_resize_events burst).map parseKey)) := by
    rcases (c2_paste_classification parseKey burst) with ⟨h1, h2, _⟩
    by_cases h : (non_resize_events burst).length > EVENTS_THRESHOLD
    · rw [if_pos h]; exact h1 h
    · rw [if_neg h]; exact h2 (by omega)
  rw [hclass, List.filter_append]
  have h2 : (if (non_resize_events burst).length > EVENTS_THRESHOLD
      then [ReedlineEvent.paste ((non_resize_events burst).map parseKey)]
      else mergeEditRuns ((non_resize_events burst).map parseKey)).filter
        ReedlineEvent.isResize = [] := by
    rw [List.filter_eq_nil_iff]
    intro a ha
    simp [htail a ha]
  rw [h2, List.append_nil]
  cases last_resize_dims burst with
  | none => rfl
  | some d => cases d; rfl

/-- Witness for C8: the burst resize(80,24), resize(100,30), two keys keeps
exactly one resize event, with the final dimensions (100,30). -/
theorem c8_resize_coalescing_witness :
    (classify_burst (fun _ => .edit [.insertChar 'a'])
        [.resizeEvent 80 24, .resizeEvent 100 30, .other 0, .other 1]).filter
      ReedlineEvent.isResize = [.resize 100 30] := by
  have h := c8_resize_coalescing (fun _ => .edit [.insertChar 'a'])
    [.resizeEvent 80 24, .resizeEvent 100 30, .other 0, .other 1]
    (fun _ => rfl)
  simpa using h

/-! ## Claim C6: Ctrl-D in HistorySearch mode

The claim keys the end-of-input decision on the search string being empty.
The code keys it on the line buffer being empty
(`self.editor.is_empty()` in the `CtrlD` branch of
`handle_history_search_event`), regardless of the search needle. -/

/-- Claim C6 exactly as stated: in HistorySearch mode, Ctrl-D with an empty
search string returns the end-of-input signal and drops to Regular, and
with a non-empty search string it does not end the session. -/
def c6ClaimStatement : Prop :=
  (∀ s : Engine, s.inputMode = .historySearch →
     s.history.get_navigation = .substringSearch "" →
     (handle_history_search_event s .ctrlD).2 = some .ctrlD ∧
     (handle_history_search_event s .ctrlD).1.inputMode = .regular) ∧
  (∀ (s : Engine) (needle : String), s.inputMode = .historySearch →
     s.history.get_navigation = .substringSearch needle → needle ≠ "" →
     (handle_history_search_event s .ctrlD).2 = Option.none)

/-- C6 counterexample: in `searchStateHi` the search string is empty but
the line buffer holds "hi", and Ctrl-D returns no signal at all — the
decision is taken on the line buffer, not on the search string. -/
theorem c6_counterexample : ¬ c6ClaimStatement := by
  intro h
  have h1 := (h.1 searchStateHi rfl rfl).1
  exact absurd h1 (by decide)

/-- C6 (amended): in HistorySearch mode the Ctrl-D decision is keyed on the
line buffer, not on the search string: with an empty line buffer it returns
the end-of-input signal, resets the undo stack and drops to Regular; with a
non-empty line buffer it returns no signal and routes a Delete through the
search-string command handler, which (Delete being neither InsertChar nor
Backspace) drops the mode to Regular and leaves the editor untouched. -/
theorem c6_ctrl_d_keyed_on_line_buffer (s : Engine)
    (_hm : s.inputMode = .historySearch) :
    (s.editor.is_empty = true →
       (handle_history_search_event s .ctrlD).2 = some .ctrlD ∧
       (handle_history_search_event s .ctrlD).1.inputMode = .regular ∧
       (handle_history_search_event s .ctrlD).1.editor.undoStack = []) ∧
    (s.editor.is_empty = false →
       (handle_history_search_event s .ctrlD).2 = Option.none ∧
       (handle_history_search_event s .ctrlD).1.inputMode = .regular ∧
       (handle_history_search_event s .ctrlD).1.editor = s.editor) := by
  constructor
  · intro he
    simp [handle_history_search_event, he, Editor.reset_undo_stack]
  · intro he
    simp [handle_history_search_event, he, run_history_commands,
      run_history_command]

/-- Witness for C6 (amended), at a state with an empty line buffer and at
`searchStateHi` (line buffer "hi"). -/
theorem c6_ctrl_d_keyed_on_line_buffer_witness :
    ((handle_history_search_event { searchStateHi with editor := Editor.default } .ctrlD).2 = some .ctrlD ∧
     (handle_history_search_event { searchStateHi with editor := Editor.default } .ctrlD).1.inputMode = .regular ∧
     (handle_history_search_event { searchStateHi with editor := Editor.default } .ctrlD).1.editor.undoStack = []) ∧
    ((handle_history_search_event searchStateHi .ctrlD).2 = Option.none ∧
     (handle_history_search_event searchStateHi .ctrlD).1.inputMode = .regular ∧
     (handle_history_search_event searchStateHi .ctrlD).1.editor = searchStateHi.editor) :=
  ⟨(c6_ctrl_d_keyed_on_line_buffer { searchStateHi with editor := Editor.default } rfl).1 (by decide),
   (c6_ctrl_d_keyed_on_line_buffer searchStateHi rfl).2 (by decide)⟩

/-! ## Claim C1: edit-command dispatch during HistoryTraversal

The claim says the buffer is materialized from the active query result
(with a fallback to the pre-traversal original) for every query kind before
the batch is applied.  The prelude of `run_edit_commands` materializes only
when the query is `Normal` *and* has a current result; for `PrefixSearch`
and `SubstringSearch` queries (and for `Normal` without a result) the
buffer is left exactly as the preceding history step painted it. -/

/-- The buffer materialization claimed by C1: the current result of the
active query for every query kind, falling back to the query fallback
text (the pre-traversal snapshot for `Normal`, the seed string otherwise)
when there is no match, followed by the demotion to Regular. -/
def claimed_traversal_prelude (s : Engine) : Engine :=
  let editor :=
    match s.history.string_at_cursor with
    | some result => s.editor.set_buffer result
    | Option.none =>
        match s.history.get_navigation with
        | .normal original => s.editor.set_line_buffer original
        | .prefixSearch p => s.editor.set_buffer p
        | .substringSearch needle => s.editor.set_buffer needle
  { s with editor := editor, inputMode := .regular }

/-- Claim C1 exactly as stated: dispatching a batch in HistoryTraversal
first materializes the buffer from the active query (any kind, with
fallback), demotes to Regular, and then applies the commands. -/
def c1ClaimStatement : Prop :=
  ∀ (s : Engine) (commands : List EditCommand),
    s.inputMode = .historyTraversal →
    run_edit_commands s commands =
      { claimed_traversal_prelude s with
        editor := commands.foldl run_edit_command_step
          (claimed_traversal_prelude s).editor }

/-- C1 counterexample: in `traversalPrefixState` the active query is
`PrefixSearch "ls"` with current result "ls -l", but dispatching a batch
leaves the line buffer at "XYZ" — no materialization happens for a
`PrefixSearch` query. -/
theorem c1_counterexample : ¬ c1ClaimStatement := by
  intro h
  have hc := congrArg (fun s => s.editor.get_buffer)
    (h traversalPrefixState [] rfl)
  exact absurd hc (by decide)

/-- The prelude `run_edit_commands` actually performs in HistoryTraversal:
materialize only for a `Normal` query with a current result, then demote. -/
def traversal_prelude (s : Engine) : Engine :=
  match s.history.get_navigation, s.history.string_at_cursor with
  | .normal _, some string =>
      { s with editor := s.editor.set_buffer string, inputMode := .regular }
  | _, _ => { s with inputMode := .regular }

/-- C1 (amended): for a batch dispatched in HistoryTraversal the mode is
demoted to Regular before any command is applied, and the buffer is
re-materialized from the query result only when the active query is
`Normal` and has a current result — for a `PrefixSearch` query the
commands are applied to the buffer exactly as the preceding history step
left it, with no fallback of any kind. -/
theorem c1_traversal_demotion (s : Engine) (commands : List EditCommand)
    (h : s.inputMode = .historyTraversal) :
    run_edit_commands s commands =
      { traversal_prelude s with
        editor := commands.foldl run_edit_command_step
          (traversal_prelude s).editor } ∧
    (run_edit_commands s commands).inputMode = .regular ∧
    (∀ p, s.history.get_navigation = .prefixSearch p →
       (run_edit_commands s commands).editor =
         commands.foldl run_edit_command_step s.editor) := by
  have hmain : run_edit_commands s commands =
      { traversal_prelude s with
        editor := commands.foldl run_edit_command_step
          (traversal_prelude s).editor } := by
    rw [run_edit_commands, if_pos h, traversal_prelude]
    rcases hn : s.history.get_navigation with original | p | needle <;>
      rcases hc : s.history.string_at_cursor with _ | str <;> rfl
  refine ⟨hmain, ?_, ?_⟩
  · rw [hmain]
    rcases hn : s.history.get_navigation with original | p | needle <;>
      rcases hc : s.history.string_at_cursor with _ | str <;>
        simp [traversal_prelude, hn, hc]
  · intro p hp
    rw [hmain]
    rcases hc : s.history.string_at_cursor with _ | str <;>
      simp [traversal_prelude, hp, hc]

/-- Witness for C1 (amended) at `traversalPrefixState` with a one-insert
batch: the insert lands on the stale buffer "XYZ", not on the prefix-query
result. -/
theorem c1_traversal_demotion_witness :
    run_edit_commands traversalPrefixState [.insertChar 'q'] =
      { traversal_prelude traversalPrefixState with
        editor := [EditCommand.insertChar 'q'].foldl run_edit_command_step
          (traversal_prelude traversalPrefixState).editor } ∧
    (run_edit_commands traversalPrefixState [.insertChar 'q']).inputMode = .regular ∧
    (∀ p, traversalPrefixState.history.get_navigation = .prefixSearch p →
       (run_edit_commands traversalPrefixState [.insertChar 'q']).editor =
         [EditCommand.insertChar 'q'].foldl run_edit_command_step
           traversalPrefixState.editor) :=
  c1_traversal_demotion traversalPrefixState [.insertChar 'q'] rfl

/-! ## Claim C3: buffer and undo reset on terminal signals

The claim: after every interaction ending with a submit/interrupt/EOF
signal the buffer is cleared and the undo stack reset, in every input mode.
The `CtrlC` branch of `handle_history_search_event` returns the interrupt
signal while leaving the editor (buffer and undo stack) completely
untouched, refuting the claim; the remaining top-level signal-producing
branches do clear and reset. -/

/-- Is a signal a successful submit, an interrupt or end-of-input (the
signals claim C3 ranges over; `CtrlL` is the clear-request)? -/
def submit_or_interrupt : Signal → Bool
  | .success _ => true
  | .ctrlC => true
  | .ctrlD => true
  | .ctrlL => false

def ReedlineEvent.isWrapper : ReedlineEvent → Bool
  | .paste _ => true
  | .multiple _ => true
  | _ => false

/-- Claim C3 exactly as stated: any dispatch returning a
submit/interrupt/EOF signal leaves a cleared buffer and a reset undo
stack. -/
def c3ClaimStatement : Prop :=
  ∀ (v : String → ValidationResult) (tab : LineBuffer → LineBuffer)
    (hint : String) (s s1 : Engine) (ev : ReedlineEvent) (sig : Signal),
    handle_event v tab hint s ev = some (s1, some sig) →
    submit_or_interrupt sig = true →
    s1.editor.get_buffer = "" ∧ s1.editor.undoStack = []

/-- C3 counterexample: Ctrl-C in HistorySearch mode (state `searchStateHi`,
line buffer "hi") returns the interrupt signal with the buffer not
cleared. -/
theorem c3_counterexample : ¬ c3ClaimStatement := by
  intro h
  have hc := h (fun _ => .complete) id "" searchStateHi
    { searchStateHi with inputMode := .regular } .ctrlC .ctrlC rfl rfl
  exact absurd hc.1 (by decide)

theorem is_empty_get_buffer (e : Editor) (h : e.is_empty = true) :
    e.get_buffer = "" :=
  (String.isEmpty_iff _).mp h

theorem run_edit_clear_spec (s : Engine) :
    (run_edit_commands s [.clear]).editor.get_buffer = "" := by
  have hstep : ∀ e : Editor, (run_edit_command_step e .clear).get_buffer = "" :=
    fun e => rfl
  rw [run_edit_commands]
  exact hstep _

/-- C3 (amended): for every top-level (non-wrapper) event whose dispatch
ends the read cycle with a submit, interrupt or EOF signal, the buffer is
cleared and the undo stack reset — except for the interrupt (Ctrl-C) in
HistorySearch mode, which returns the signal with buffer and undo stack
untouched.  (Wrapper events are excluded: a paste or multi-event wrapper
can carry an inner interrupt signal outward past later wrapped edits.) -/
theorem c3_clear_on_terminal_signal
    (v : String → ValidationResult) (tab : LineBuffer → LineBuffer)
    (hint : String) (s s1 : Engine) (ev : ReedlineEvent) (sig : Signal)
    (hev : ev.isWrapper = false)
    (h : handle_event v tab hint s ev = some (s1, some sig))
    (hsig : submit_or_interrupt sig = true)
    (hexc : ¬ (s.inputMode = .historySearch ∧ sig = .ctrlC)) :
    s1.editor.get_buffer = "" ∧ s1.editor.undoStack = [] := by
  rw [handle_event] at h
  by_cases hm : s.inputMode = .historySearch
  · rw [if_pos hm] at h
    cases ev with
    | ctrlD =>
        simp only [handle_history_search_event] at h
        by_cases he : s.editor.is_empty = true
        · rw [if_pos (by simpa using he)] at h
          simp only [Option.some.injEq, Prod.mk.injEq] at h
          obtain ⟨h1, -⟩ := h
          rw [← h1]
          exact ⟨is_empty_get_buffer _ he, rfl⟩
        · rw [if_neg (by simpa using he)] at h
          simp at h
    | ctrlC =>
        simp only [handle_history_search_event, Option.some.injEq,
          Prod.mk.injEq, Option.some.injEq] at h
        exact absurd ⟨hm, h.2.symm⟩ hexc
    | clearScreen =>
        simp only [handle_history_search_event, Option.some.injEq,
          Prod.mk.injEq, Option.some.injEq] at h
        rw [← h.2] at hsig
        simp [submit_or_interrupt] at hsig
    | enter => simp [handle_history_search_event] at h
    | handleTab => simp [handle_history_search_event] at h
    | edit commands => simp [handle_history_search_event] at h
    | mouse => simp [handle_history_search_event] at h
    | resize w hh => simp [handle_history_search_event] at h
    | repaint => simp [handle_history_search_event] at h
    | previousHistory => simp [handle_history_search_event] at h
    | nextHistory => simp [handle_history_search_event] at h
    | up => simp [handle_history_search_event] at h
    | down => simp [handle_history_search_event] at h
    | searchHistory => simp [handle_history_search_event] at h
    | paste events => simp [handle_history_search_event] at h
    | multiple events => simp [handle_history_search_event] at h
    | none => simp [handle_history_search_event] at h
  · rw [if_neg hm] at h
    cases ev with
    | handleTab =>
        simp only [handle_editor_event] at h
        by_cases hh : hint ≠ "" ∧ s.inputMode = .regular
        · rw [if_pos hh] at h; simp at h
        · rw [if_neg hh] at h; simp at h
    | ctrlD =>
        simp only [handle_editor_event] at h
        by_cases he : s.editor.is_empty = true
        · rw [if_pos (by simpa using he)] at h
          simp only [Option.some.injEq, Prod.mk.injEq] at h
          obtain ⟨h1, -⟩ := h
          rw [← h1]
          exact ⟨is_empty_get_buffer _ he, rfl⟩
        · rw [if_neg (by simpa using he)] at h
          simp at h
    | ctrlC =>
        simp only [handle_editor_event, Option.some.injEq, Prod.mk.injEq] at h
        obtain ⟨h1, -⟩ := h
        rw [← h1]
        exact ⟨run_edit_clear_spec s, rfl⟩
    | clearScreen =>
        simp only [handle_editor_event, Option.some.injEq, Prod.mk.injEq,
          Option.some.injEq] at h
        rw [← h.2] at hsig
        simp [submit_or_interrupt] at hsig
    | enter =>
        simp only [handle_editor_event] at h
        by_cases hv : v s.editor.get_buffer = .complete
        · rw [if_pos hv] at h
          simp only [Option.some.injEq, Prod.mk.injEq] at h
          obtain ⟨h1, -⟩ := h
          rw [← h1]
          exact ⟨run_edit_clear_spec (append_to_history s), rfl⟩
        · rw [if_neg hv] at h
          simp at h
    | edit commands => simp [handle_editor_event] at h
    | mouse => simp [handle_editor_event] at h
    | resize w hh => simp [handle_editor_event] at h
    | repaint => simp [handle_editor_event] at h
    | previousHistory =>
        simp only [handle_editor_event] at h
        cases hp : previous_history s <;> simp [hp] at h
    | nextHistory =>
        simp only [handle_editor_event] at h
        cases hp : next_history s <;> simp [hp] at h
    | up =>
        simp only [handle_editor_event] at h
        cases hp : up_command s <;> simp [hp] at h
    | down =>
        simp only [handle_editor_event] at h
        cases hp : down_command s <;> simp [hp] at h
    | searchHistory => simp [handle_editor_event] at h
    | paste events => simp [ReedlineEvent.isWrapper] at hev
    | multiple events => simp [ReedlineEvent.isWrapper] at hev
    | none => simp [handle_editor_event] at h

/-- Witness for C3 (amended): Ctrl-D on the fresh engine returns the EOF
signal with an empty buffer and an empty undo stack. -/
theorem c3_clear_on_terminal_signal_witness :
    ({ Engine.create with editor := Engine.create.editor.reset_undo_stack }).editor.get_buffer = "" ∧
    ({ Engine.create with editor := Engine.create.editor.reset_undo_stack }).editor.undoStack = [] :=
  c3_clear_on_terminal_signal (fun _ => .complete) id "" Engine.create
    { Engine.create with editor := Engine.create.editor.reset_undo_stack }
    .ctrlD .ctrlD rfl rfl rfl (by decide)

/-! ## Claim C7: wrapper unwrapping

The claim: paste and multi-event wrappers unwrap recursively through the
same event handling in every mode, the single exception being that
HistorySearch ignores paste wrappers.  In fact HistorySearch ignores
`Multiple` wrappers too (its `Multiple` branch returns the state
unchanged), so the claim as stated fails; outside HistorySearch both
wrappers do dispatch their contents sequentially through the editor event
handler (with the paste-specific direct-insertion path for wrapped `Edit`
batches). -/

/-- Sequential dispatch of a list of events through the mode-sensitive
`handle_event`, each event seeing the state left by the previous one and
overwriting the signal (the dispatch the claim says wrappers reduce to). -/
def dispatch_sequence (v : String → ValidationResult)
    (tab : LineBuffer → LineBuffer) (hint : String) :
    Option (Engine × Option Signal) → List ReedlineEvent →
      Option (Engine × Option Signal)
  | start, [] => start
  | start, ev :: rest =>
      dispatch_sequence v tab hint
        (start.bind (fun p => handle_event v tab hint p.1 ev)) rest

/-- Sequential dispatch through the editor event handler (what the
`Multiple` branch actually performs). -/
def sequential_editor_dispatch (v : String → ValidationResult)
    (tab : LineBuffer → LineBuffer) (hint : String) :
    Option (Engine × Option Signal) → List ReedlineEvent →
      Option (Engine × Option Signal)
  | start, [] => start
  | start, ev :: rest =>
      sequential_editor_dispatch v tab hint
        (start.bind (fun p => handle_editor_event v tab hint p.1 ev)) rest

/-- Sequential dispatch as performed by the `Paste` branch: wrapped `Edit`
batches go through the direct-insertion path (keeping the pending signal),
every other wrapped event through the editor event handler. -/
def sequential_paste_dispatch (v : String → ValidationResult)
    (tab : LineBuffer → LineBuffer) (hint : String) :
    Option (Engine × Option Signal) → List ReedlineEvent →
      Option (Engine × Option Signal)
  | start, [] => start
  | start, .edit commands :: rest =>
      sequential_paste_dispatch v tab hint
        (start.map (fun p => (paste_edit_commands p.1 commands, p.2))) rest
  | start, ev :: rest =>
      sequential_paste_dispatch v tab hint
        (start.bind (fun p => handle_editor_event v tab hint p.1 ev)) rest

/-- Claim C7 exactly as stated: both wrappers unwrap into sequential
dispatch through the same event handling in every mode, except that
HistorySearch ignores paste wrappers. -/
def c7ClaimStatement : Prop :=
  ∀ (v : String → ValidationResult) (tab : LineBuffer → LineBuffer)
    (hint : String) (s : Engine) (evs : List ReedlineEvent),
    (s.inputMode = .historySearch →
       handle_event v tab hint s (.paste evs) = some (s, Option.none)) ∧
    (¬ (s.inputMode = .historySearch) →
       handle_event v tab hint s (.paste evs) =
         dispatch_sequence v tab hint (some (s, Option.none)) evs) ∧
    handle_event v tab hint s (.multiple evs) =
      dispatch_sequence v tab hint (some (s, Option.none)) evs

/-- C7 counterexample: in HistorySearch mode a `Multiple` wrapper around an
`InsertChar` edit is ignored outright, while dispatching its contents
through the same event handling would extend the search needle. -/
theorem c7_counterexample : ¬ c7ClaimStatement := by
  intro h
  have hc := (h (fun _ => .complete) id "" searchStateHi
    [.edit [.insertChar 'a']]).2.2
  exact absurd hc (by decide)

theorem sequential_editor_dispatch_none (v : String → ValidationResult)
    (tab : LineBuffer → LineBuffer) (hint : String) :
    ∀ evs, sequential_editor_dispatch v tab hint Option.none evs =
      Option.none := by
  intro evs
  induction evs with
  | nil => rfl
  | cons ev rest IH => simp [sequential_editor_dispatch, IH]

theorem sequential_paste_dispatch_none (v : String → ValidationResult)
    (tab : LineBuffer → LineBuffer) (hint : String) :
    ∀ evs, sequential_paste_dispatch v tab hint Option.none evs =
      Option.none := by
  intro evs
  induction evs with
  | nil => rfl
  | cons ev rest IH => cases ev <;> simp [sequential_paste_dispatch, IH]

theorem multiple_loop_eq_sequential (v : String → ValidationResult)
    (tab : LineBuffer → LineBuffer) (hint : String) :
    ∀ (evs : List ReedlineEvent) (s : Engine) (sig : Option Signal),
      multiple_events_loop v tab hint s sig evs =
        sequential_editor_dispatch v tab hint (some (s, sig)) evs := by
  intro evs
  induction evs with
  | nil => intro s sig; rfl
  | cons ev rest IH =>
      intro s sig
      cases hh : handle_editor_event v tab hint s ev with
      | none =>
          simp [multiple_events_loop, sequential_editor_dispatch, hh,
            sequential_editor_dispatch_none]
      | some p =>
          obtain ⟨s1, sig1⟩ := p
          simp [multiple_events_loop, sequential_editor_dispatch, hh, IH]

theorem paste_loop_cons_ne (v : String → ValidationResult)
    (tab : LineBuffer → LineBuffer) (hint : String) (s : Engine)
    (sig : Option Signal) (ev : ReedlineEvent) (rest : List ReedlineEvent)
    (hne : ∀ c, ev ≠ .edit c) :
    paste_events_loop v tab hint s sig (ev :: rest) =
      match handle_editor_event v tab hint s ev with
      | some (s1, sig1) => paste_events_loop v tab hint s1 sig1 rest
      | Option.none => Option.none := by
  cases ev <;> first | rfl | (exact absurd rfl (hne _))

theorem sequential_paste_cons_ne (v : String → ValidationResult)
    (tab : LineBuffer → LineBuffer) (hint : String)
    (start : Option (Engine × Option Signal)) (ev : ReedlineEvent)
    (rest : List ReedlineEvent) (hne : ∀ c, ev ≠ .edit c) :
    sequential_paste_dispatch v tab hint start (ev :: rest) =
      sequential_paste_dispatch v tab hint
        (start.bind (fun p => handle_editor_event v tab hint p.1 ev)) rest := by
  cases ev <;> first | rfl | (exact absurd rfl (hne _))

theorem paste_loop_eq_sequential (v : String → ValidationResult)
    (tab : LineBuffer → LineBuffer) (hint : String) :
    ∀ (evs : List ReedlineEvent) (s : Engine) (sig : Option Signal),
      paste_events_loop v tab hint s sig evs =
        sequential_paste_dispatch v tab hint (some (s, sig)) evs := by
  intro evs
  induction evs with
  | nil => intro s sig; rfl
  | cons ev rest IH =>
      intro s sig
      by_cases hed : ∃ c, ev = ReedlineEvent.edit c
      · obtain ⟨c, rfl⟩ := hed
        simp [paste_events_loop, sequential_paste_dispatch, IH]
      · have hne : ∀ c, ev ≠ ReedlineEvent.edit c := by
          intro c hc
          exact hed ⟨c, hc⟩
        rw [paste_loop_cons_ne v tab hint s sig ev rest hne,
            sequential_paste_cons_ne v tab hint _ ev rest hne]
        cases hh : handle_editor_event v tab hint s ev with
        | none => simp [hh, sequential_paste_dispatch_none]
        | some p =>
            obtain ⟨s1, sig1⟩ := p
            simp [hh, IH]

/-- C7 (amended): HistorySearch mode ignores both paste and multi-event
wrappers entirely (state unchanged, no signal); in every other mode a
`Multiple` wrapper dispatches its events sequentially through the editor
event handler, and a `Paste` wrapper does the same except that wrapped
`Edit` batches take the direct-insertion path. -/
theorem c7_wrapper_dispatch (v : String → ValidationResult)
    (tab : LineBuffer → LineBuffer) (hint : String) (s : Engine)
    (evs : List ReedlineEvent) :
    (s.inputMode = .historySearch →
       handle_event v tab hint s (.paste evs) = some (s, Option.none) ∧
       handle_event v tab hint s (.multiple evs) = some (s, Option.none)) ∧
    (s.inputMode ≠ .historySearch →
       handle_event v tab hint s (.multiple evs) =
         sequential_editor_dispatch v tab hint (some (s, Option.none)) evs ∧
       handle_event v tab hint s (.paste evs) =
         sequential_paste_dispatch v tab hint (some (s, Option.none)) evs) := by
  constructor
  · intro hm
    constructor <;> simp [handle_event, hm, handle_history_search_event]
  · intro hm
    constructor
    · simp [handle_event, hm, handle_editor_event,
        multiple_loop_eq_sequential]
    · simp [handle_event, hm, handle_editor_event, paste_loop_eq_sequential]

/-- Witness for C7 (amended): the ignore clause at `searchStateHi`, the
dispatch clauses at the fresh engine. -/
theorem c7_wrapper_dispatch_witness :
    (handle_event (fun _ => .complete) id "" searchStateHi
       (.paste [.edit [.insertChar 'a']]) = some (searchStateHi, Option.none) ∧
     handle_event (fun _ => .complete) id "" searchStateHi
       (.multiple [.edit [.insertChar 'a']]) = some (searchStateHi, Option.none)) ∧
    (handle_event (fun _ => .complete) id "" Engine.create
       (.multiple [.edit [.insertChar 'a']]) =
       sequential_editor_dispatch (fun _ => .complete) id ""
         (some (Engine.create, Option.none)) [.edit [.insertChar 'a']] ∧
     handle_event (fun _ => .complete) id "" Engine.create
       (.paste [.edit [.insertChar 'a']]) =
       sequential_paste_dispatch (fun _ => .complete) id ""
         (some (Engine.create, Option.none)) [.edit [.insertChar 'a']]) :=
  ⟨(c7_wrapper_dispatch (fun _ => .complete) id "" searchStateHi
      [.edit [.insertChar 'a']]).1 rfl,
   (c7_wrapper_dispatch (fun _ => .complete) id "" Engine.create
      [.edit [.insertChar 'a']]).2 (by decide)⟩

/-! ## Claim C9: boundary policy of history navigation

In HistorySearch mode both directions hold: stepping back past the oldest
match leaves the store where it was (the modelled `back` stays put without
a result), and stepping forward past the newest match is compensated by the
engine with an immediate `back()` (engine.rs:486-489), restoring the
displayed result.  In the standard prompt (`previous_history` /
`next_history`) the backward direction also holds, but the forward
direction does not: stepping forward past the newest match lands on the
"present" sentinel and `update_buffer_from_history` paints the query
fallback text (the `Normal` original, or the prefix), changing the
displayed buffer. -/

/-- Engine in HistorySearch mode with the cursor on the newest substring
match. -/
def searchStateAB : Engine :=
  { editor := mkEditor "" 0,
    history := { entries := ["ab", "xy"], cursor := some 0,
                 navigation := .substringSearch "a" },
    inputMode := .historySearch }

/-- Engine in HistoryTraversal mode displaying the oldest prefix match. -/
def traversalOldestState : Engine :=
  { editor := mkEditor "ls -la" 6,
    history := { entries := ["ls -la", "ls -l", "pwd"], cursor := some 0,
                 navigation := .prefixSearch "ls" },
    inputMode := .historyTraversal }

theorem matchesAt_lt (h : HistoryStore) (i : Nat)
    (hm : h.matchesAt i = true) : i < h.entries.length := by
  unfold HistoryStore.matchesAt at hm
  by_contra hge
  rw [List.get?_eq_none.mpr (by omega)] at hm
  simp at hm

theorem matchesAt_false_of_ge (h : HistoryStore) (j : Nat)
    (hj : h.entries.length ≤ j) : h.matchesAt j = false := by
  unfold HistoryStore.matchesAt
  rw [List.get?_eq_none.mpr hj]

theorem back_navigation (h : HistoryStore) : h.back.navigation = h.navigation := by
  rw [HistoryStore.back]
  split <;> rfl

theorem forward_navigation (h : HistoryStore) :
    h.forward.navigation = h.navigation := by
  rw [HistoryStore.forward]
  split
  · rfl
  · split <;> rfl

/-- In a list of naturals filtered from `range n`, if `i` satisfies the
predicate and nothing above `i` does, the last match is `i`. -/
theorem filter_range_getLast (p : Nat → Bool) (n i : Nat) (hi : i < n)
    (hpi : p i = true) (hj : ∀ j, i < j → p j = false) :
    ((List.range n).filter p).getLast? = some i := by
  have hsplit : n = (i + 1) + (n - (i + 1)) := by omega
  rw [hsplit, List.range_add, List.filter_append]
  have h2 : ((List.range (n - (i + 1))).map (fun j => (i + 1) + j)).filter p
      = [] := by
    rw [List.filter_eq_nil_iff]
    intro a ha
    rcases List.mem_map.mp ha with ⟨j, -, rfl⟩
    simp only [Bool.not_eq_true]
    exact hj (i + 1 + j) (by omega)
  rw [h2, List.append_nil, List.range_succ, List.filter_append]
  simp [hpi]

/-- Changing only the cursor leaves the match predicate unchanged. -/
theorem matchesAt_set_cursor (h : HistoryStore) (c : Option Nat) :
    HistoryStore.matchesAt { h with cursor := c } = h.matchesAt := rfl

/-- Forward past the newest match followed by the compensating back-step
returns to the entry that was displayed. -/
theorem forward_back_restores (h : HistoryStore) (i : Nat)
    (hc : h.cursor = some i) (hm : h.matchesAt i = true)
    (hno : h.forward.string_at_cursor = Option.none) :
    h.forward.back.string_at_cursor = h.string_at_cursor := by
  have hilen := matchesAt_lt h i hm
  simp only [HistoryStore.forward, hc] at hno ⊢
  cases hf : ((List.range h.entries.length).filter
      (fun j => decide (i < j ∧ h.matchesAt j = true))).head? with
  | some j =>
      exfalso
      simp only [hf, HistoryStore.string_at_cursor, Option.some_bind] at hno
      have hj : j ∈ (List.range h.entries.length).filter
          (fun j => decide (i < j ∧ h.matchesAt j = true)) :=
        List.mem_of_mem_head? (by rw [hf]; rfl)
      have hjlen : j < h.entries.length :=
        List.mem_range.mp (List.mem_of_mem_filter hj)
      rw [List.get?_eq_none] at hno
      omega
  | none =>
      simp only [hf]
      have hj2 : ∀ j, i < j → h.matchesAt j = false := by
        intro j hij
        by_cases hjl : j < h.entries.length
        · have hfe : (List.range h.entries.length).filter
              (fun j => decide (i < j ∧ h.matchesAt j = true)) = [] :=
            List.head?_eq_none_iff.mp hf
          have hmem := List.filter_eq_nil_iff.mp hfe j (List.mem_range.mpr hjl)
          simp only [decide_eq_true_eq, not_and] at hmem
          simpa using hmem hij
        · exact matchesAt_false_of_ge h j (by omega)
      have hlast : ((List.range h.entries.length).filter h.matchesAt).getLast?
          = some i :=
        filter_range_getLast h.matchesAt h.entries.length i hilen hm hj2
      simp only [HistoryStore.back, matchesAt_set_cursor, hlast,
        HistoryStore.string_at_cursor, Option.some_bind, hc]

/-- Claim C9 exactly as stated: at both boundaries, in both the search
prompt and the standard prompt, the displayed content is unchanged. -/
def c9ClaimStatement : Prop :=
  (∀ s : Engine, s.inputMode = .historySearch → s.history.back = s.history →
     handle_history_search_event s .previousHistory = (s, Option.none)) ∧
  (∀ (s : Engine) (i : Nat), s.inputMode = .historySearch →
     s.history.cursor = some i → s.history.matchesAt i = true →
     s.history.forward.string_at_cursor = Option.none →
     (handle_history_search_event s .nextHistory).1.history.string_at_cursor
       = s.history.string_at_cursor) ∧
  (∀ s : Engine, s.inputMode = .historyTraversal →
     update_buffer_from_history s = some s → s.history.back = s.history →
     previous_history s = some s) ∧
  (∀ s : Engine, s.inputMode = .historyTraversal →
     update_buffer_from_history s = some s →
     s.history.forward.string_at_cursor = Option.none →
     (next_history s).map (fun s1 => s1.editor.get_buffer) =
       some s.editor.get_buffer)

/-- C9 counterexample: in `traversalDisplayedState` (standard prompt,
prefix query "ls", displaying "ls -l", no newer match) a forward step
repaints the buffer with the prefix "ls" — the displayed buffer changes at
the newest-match boundary of the standard prompt. -/
theorem c9_counterexample : ¬ c9ClaimStatement := by
  intro h
  have hc := h.2.2.2 traversalDisplayedState rfl (by decide) (by decide)
  exact absurd hc (by decide)

/-- C9 (amended): stepping past the oldest match leaves the displayed
content unchanged in both prompts, and stepping past the newest match
leaves it unchanged in the search prompt (via the immediate compensating
back-step); in the standard prompt a forward step past the newest match
instead repaints the buffer with the query fallback text — the preserved
original for a Normal query, the prefix for a PrefixSearch query. -/
theorem c9_boundary_policy :
    (∀ s : Engine, s.inputMode = .historySearch → s.history.back = s.history →
       handle_history_search_event s .previousHistory = (s, Option.none)) ∧
    (∀ (s : Engine) (i : Nat), s.inputMode = .historySearch →
       s.history.cursor = some i → s.history.matchesAt i = true →
       s.history.forward.string_at_cursor = Option.none →
       (handle_history_search_event s .nextHistory).1.history.string_at_cursor
         = s.history.string_at_cursor) ∧
    (∀ s : Engine, s.inputMode = .historyTraversal →
       update_buffer_from_history s = some s → s.history.back = s.history →
       previous_history s = some s) ∧
    (∀ s : Engine, s.inputMode = .historyTraversal →
       s.history.forward.string_at_cursor = Option.none →
       (next_history s).map (fun s1 => s1.editor.get_buffer) =
         (match s.history.get_navigation with
          | .normal original => some original.buffer
          | .prefixSearch p => some p
          | .substringSearch _ => Option.none)) := by
  refine ⟨?_, ?_, ?_, ?_⟩
  · intro s _ hb
    simp [handle_history_search_event, hb]
  · intro s i _ hc hm hno
    simp only [handle_history_search_event]
    rw [if_pos (by simp [hno])]
    exact forward_back_restores s.history i hc hm hno
  · intro s hm hfix hb
    rw [previous_history, if_neg (by simp [hm]), hb]
    exact hfix
  · intro s hm hno
    rw [next_history, if_neg (by simp [hm]), update_buffer_from_history]
    simp only [HistoryStore.get_navigation]
    rw [forward_navigation]
    cases hn : s.history.navigation with
    | normal original =>
        simp only [hno]
        simp [Editor.set_line_buffer, Editor.get_buffer]
    | prefixSearch p =>
        simp only [hno]
        simp [Editor.set_buffer, Editor.set_insertion_point, Editor.get_buffer]
    | substringSearch needle => rfl

/-- Witness for C9 (amended): the four clauses at concrete states —
back-stuck search (`searchStateHi`, empty history), forward compensation in
search (`searchStateAB`), back-stuck standard prompt
(`traversalOldestState`), and the prefix fallback on forward past the
newest match (`traversalDisplayedState`). -/
theorem c9_boundary_policy_witness :
    handle_history_search_event searchStateHi .previousHistory =
      (searchStateHi, Option.none) ∧
    (handle_history_search_event searchStateAB .nextHistory).1.history.string_at_cursor
      = searchStateAB.history.string_at_cursor ∧
    previous_history traversalOldestState = some traversalOldestState ∧
    (next_history traversalDisplayedState).map (fun s1 => s1.editor.get_buffer)
      = some "ls" :=
  ⟨c9_boundary_policy.1 searchStateHi rfl (by decide),
   c9_boundary_policy.2.1 searchStateAB 0 rfl rfl (by decide) (by decide),
   c9_boundary_policy.2.2.1 traversalOldestState rfl (by decide) (by decide),
   c9_boundary_policy.2.2.2 traversalDisplayedState rfl (by decide)⟩

/-! ## Claim C4: the SubstringSearch branch of buffer materialization is
unreachable

`update_buffer_from_history` aborts (`todo!()`) when the active query is
`SubstringSearch`.  The engine maintains the invariant that in
`HistoryTraversal` mode the active query is always `Normal` or
`PrefixSearch` (every entry into traversal replaces the query via
`set_history_navigation_based_on_line_buffer`), and the aborting branch is
therefore never executed from any reachable state: the proof below closes
the reachable states of the engine under every event dispatch —
wrappers included — and shows no dispatch ever hits the abort. -/

def HistoryNavigationQuery.isTraversalKind : HistoryNavigationQuery → Bool
  | .normal _ => true
  | .prefixSearch _ => true
  | .substringSearch _ => false

/-- The engine invariant behind C4: in HistoryTraversal mode the active
navigation query is of a kind handled by `update_buffer_from_history`. -/
def navInv (s : Engine) : Prop :=
  s.inputMode = .historyTraversal →
    s.history.navigation.isTraversalKind = true

theorem append_navigation (h : HistoryStore) (line : String) :
    (h.append line).navigation = h.navigation := rfl

theorem run_edit_commands_mode (s : Engine) (cmds : List EditCommand) :
    (run_edit_commands s cmds).inputMode =
      (if s.inputMode = .historyTraversal then .regular else s.inputMode) ∧
    (run_edit_commands s cmds).history = s.history := by
  by_cases h : s.inputMode = .historyTraversal <;>
    rcases hn : s.history.get_navigation with o | p | n <;>
      rcases hc : s.history.string_at_cursor with _ | str <;>
        simp [run_edit_commands, h, hn, hc]

theorem run_edit_commands_not_traversal (s : Engine) (cmds : List EditCommand) :
    (run_edit_commands s cmds).inputMode ≠ .historyTraversal := by
  have h := (run_edit_commands_mode s cmds).1
  rw [h]
  split <;> simp_all

theorem run_edit_commands_navInv (s : Engine) (cmds : List EditCommand) :
    navInv (run_edit_commands s cmds) :=
  fun hm => absurd hm (run_edit_commands_not_traversal s cmds)

theorem run_history_command_mode (s : Engine) (c : EditCommand)
    (h : s.inputMode ≠ .historyTraversal) :
    (run_history_command s c).inputMode ≠ .historyTraversal := by
  cases c <;>
    rcases hn : s.history.get_navigation with o | p | n <;>
      simp [run_history_command, hn, h]

theorem run_history_commands_not_traversal (s : Engine)
    (cmds : List EditCommand) (h : s.inputMode ≠ .historyTraversal) :
    (run_history_commands s cmds).inputMode ≠ .historyTraversal := by
  induction cmds generalizing s with
  | nil => exact h
  | cons c rest IH => exact IH _ (run_history_command_mode s c h)

theorem handle_history_search_event_not_traversal (s : Engine)
    (ev : ReedlineEvent) (h : s.inputMode = .historySearch) :
    (handle_history_search_event s ev).1.inputMode ≠ .historyTraversal := by
  have hne : s.inputMode ≠ .historyTraversal := by simp [h]
  cases ev with
  | ctrlD =>
      by_cases he : s.editor.is_empty = true
      · simp [handle_history_search_event, he]
      · rw [handle_history_search_event,
          if_neg (by simpa using he)]
        exact run_history_commands_not_traversal s _ hne
  | edit commands =>
      exact run_history_commands_not_traversal s commands hne
  | enter =>
      rcases hc : s.history.string_at_cursor with _ | str <;>
        simp [handle_history_search_event, hc, h]
  | handleTab =>
      rcases hc : s.history.string_at_cursor with _ | str <;>
        simp [handle_history_search_event, hc, h]
  | _ =>
      first
      | simp [handle_history_search_event, h]

theorem update_buffer_from_history_some (s : Engine)
    (h : s.history.navigation.isTraversalKind = true) :
    ∃ s1, update_buffer_from_history s = some s1 ∧ s1.history = s.history ∧
      s1.inputMode = s.inputMode := by
  rw [update_buffer_from_history]
  split
  next o hn => split <;> exact ⟨_, rfl, rfl, rfl⟩
  next p hn => split <;> exact ⟨_, rfl, rfl, rfl⟩
  next n hn =>
    rw [HistoryStore.get_navigation] at hn
    rw [hn] at h
    simp [HistoryNavigationQuery.isTraversalKind] at h

theorem set_nav_based_spec (s : Engine) :
    (set_history_navigation_based_on_line_buffer s).inputMode = s.inputMode ∧
    (set_history_navigation_based_on_line_buffer
        s).history.navigation.isTraversalKind = true := by
  rw [set_history_navigation_based_on_line_buffer]
  split <;>
    simp [HistoryStore.set_navigation, HistoryNavigationQuery.isTraversalKind]

theorem previous_history_inv (s : Engine) (hinv : navInv s) :
    ∃ s1, previous_history s = some s1 ∧
      s1.inputMode = .historyTraversal ∧
      s1.history.navigation.isTraversalKind = true := by
  rw [previous_history]
  by_cases h : s.inputMode = .historyTraversal
  · rw [if_neg (by simp [h])]
    have hk : ({ s with history := s.history.back } :
        Engine).history.navigation.isTraversalKind = true := by
      simpa [back_navigation] using hinv h
    obtain ⟨s1, he, hh, hm⟩ := update_buffer_from_history_some _ hk
    exact ⟨s1, he, by rw [hm]; exact h, by rw [hh]; exact hk⟩
  · rw [if_pos (by simp [h])]
    have hs2 := set_nav_based_spec { s with inputMode := .historyTraversal }
    have hk : ((set_history_navigation_based_on_line_buffer
          { s with inputMode := .historyTraversal }).history.back).navigation.isTraversalKind
        = true := by
      rw [back_navigation]
      exact hs2.2
    obtain ⟨s1, he, hh, hm⟩ := update_buffer_from_history_some
      { set_history_navigation_based_on_line_buffer
          { s with inputMode := .historyTraversal } with
        history := (set_history_navigation_based_on_line_buffer
          { s with inputMode := .historyTraversal }).history.back } hk
    refine ⟨s1, he, ?_, ?_⟩
    · rw [hm]
      exact hs2.1
    · rw [hh]
      exact hk

theorem next_history_inv (s : Engine) (hinv : navInv s) :
    ∃ s1, next_history s = some s1 ∧
      s1.inputMode = .historyTraversal ∧
      s1.history.navigation.isTraversalKind = true := by
  rw [next_history]
  by_cases h : s.inputMode = .historyTraversal
  · rw [if_neg (by simp [h])]
    have hk : ({ s with history := s.history.forward } :
        Engine).history.navigation.isTraversalKind = true := by
      simpa [forward_navigation] using hinv h
    obtain ⟨s1, he, hh, hm⟩ := update_buffer_from_history_some _ hk
    exact ⟨s1, he, by rw [hm]; exact h, by rw [hh]; exact hk⟩
  · rw [if_pos (by simp [h])]
    have hs2 := set_nav_based_spec { s with inputMode := .historyTraversal }
    have hk : ((set_history_navigation_based_on_line_buffer
          { s with inputMode := .historyTraversal }).history.forward).navigation.isTraversalKind
        = true := by
      rw [forward_navigation]
      exact hs2.2
    obtain ⟨s1, he, hh, hm⟩ := update_buffer_from_history_some
      { set_history_navigation_based_on_line_buffer
          { s with inputMode := .historyTraversal } with
        history := (set_history_navigation_based_on_line_buffer
          { s with inputMode := .historyTraversal }).history.forward } hk
    refine ⟨s1, he, ?_, ?_⟩
    · rw [hm]
      exact hs2.1
    · rw [hh]
      exact hk

theorem up_command_inv (s : Engine) (hinv : navInv s) :
    ∃ s1, up_command s = some s1 ∧ navInv s1 := by
  rw [up_command]
  split
  · obtain ⟨s1, he, -, hk⟩ := previous_history_inv s hinv
    exact ⟨s1, he, fun _ => hk⟩
  · exact ⟨_, rfl, hinv⟩

theorem down_command_inv (s : Engine) (hinv : navInv s) :
    ∃ s1, down_command s = some s1 ∧ navInv s1 := by
  rw [down_command]
  split
  · obtain ⟨s1, he, -, hk⟩ := next_history_inv s hinv
    exact ⟨s1, he, fun _ => hk⟩
  · exact ⟨_, rfl, hinv⟩

theorem paste_edit_commands_navInv (s : Engine) (cmds : List EditCommand)
    (hs : navInv s) : navInv (paste_edit_commands s cmds) := by
  induction cmds generalizing s with
  | nil => exact hs
  | cons c rest IH =>
      cases c with
      | insertChar ch => exact IH { s with editor := s.editor.insert_char ch } hs
      | _ =>
          first
          | exact IH _ (run_edit_commands_navInv s _)

theorem paste_events_loop_inv (n : Nat)
    (IH : ∀ ev : ReedlineEvent, sizeOf ev ≤ n →
      ∀ (v : String → ValidationResult) (tab : LineBuffer → LineBuffer)
        (hint : String) (s : Engine), navInv s →
        ∃ r, handle_editor_event v tab hint s ev = some r ∧ navInv r.1) :
    ∀ (events : List ReedlineEvent), sizeOf events ≤ n →
      ∀ (v : String → ValidationResult) (tab : LineBuffer → LineBuffer)
        (hint : String) (s : Engine) (sig : Option Signal), navInv s →
        ∃ r, paste_events_loop v tab hint s sig events = some r ∧
          navInv r.1 := by
  intro events
  induction events with
  | nil =>
      intro _ v tab hint s sig hs
      exact ⟨(s, sig), rfl, hs⟩
  | cons ev rest IHl =>
      intro hsz v tab hint s sig hs
      have h1 : sizeOf (ev :: rest) = 1 + sizeOf ev + sizeOf rest := by simp
      rw [h1] at hsz
      have hev : sizeOf ev ≤ n := by omega
      have hrest : sizeOf rest ≤ n := by omega
      by_cases hed : ∃ c, ev = ReedlineEvent.edit c
      · obtain ⟨c, rfl⟩ := hed
        obtain ⟨r, hr, hnr⟩ := IHl hrest v tab hint (paste_edit_commands s c)
          sig (paste_edit_commands_navInv s c hs)
        exact ⟨r, hr, hnr⟩
      · have hne : ∀ c, ev ≠ ReedlineEvent.edit c := fun c hc => hed ⟨c, hc⟩
        obtain ⟨⟨s1, sig1⟩, hr1, hnr1⟩ := IH ev hev v tab hint s hs
        obtain ⟨r, hr, hnr⟩ := IHl hrest v tab hint s1 sig1 hnr1
        refine ⟨r, ?_, hnr⟩
        rw [paste_loop_cons_ne v tab hint s sig ev rest hne, hr1]
        exact hr

theorem multiple_events_loop_inv (n : Nat)
    (IH : ∀ ev : ReedlineEvent, sizeOf ev ≤ n →
      ∀ (v : String → ValidationResult) (tab : LineBuffer → LineBuffer)
        (hint : String) (s : Engine), navInv s →
        ∃ r, handle_editor_event v tab hint s ev = some r ∧ navInv r.1) :
    ∀ (events : List ReedlineEvent), sizeOf events ≤ n →
      ∀ (v : String → ValidationResult) (tab : LineBuffer → LineBuffer)
        (hint : String) (s : Engine) (sig : Option Signal), navInv s →
        ∃ r, multiple_events_loop v tab hint s sig events = some r ∧
          navInv r.1 := by
  intro events
  induction events with
  | nil =>
      intro _ v tab hint s sig hs
      exact ⟨(s, sig), rfl, hs⟩
  | cons ev rest IHl =>
      intro hsz v tab hint s sig hs
      have h1 : sizeOf (ev :: rest) = 1 + sizeOf ev + sizeOf rest := by simp
      rw [h1] at hsz
      have hev : sizeOf ev ≤ n := by omega
      have hrest : sizeOf rest ≤ n := by omega
      obtain ⟨⟨s1, sig1⟩, hr1, hnr1⟩ := IH ev hev v tab hint s hs
      obtain ⟨r, hr, hnr⟩ := IHl hrest v tab hint s1 sig1 hnr1
      refine ⟨r, ?_, hnr⟩
      simp only [multiple_events_loop, hr1]
      exact hr

theorem handle_editor_event_inv : ∀ (n : Nat) (ev : ReedlineEvent),
    sizeOf ev ≤ n →
    ∀ (v : String → ValidationResult) (tab : LineBuffer → LineBuffer)
      (hint : String) (s : Engine), navInv s →
      ∃ r, handle_editor_event v tab hint s ev = some r ∧ navInv r.1 := by
  intro n
  induction n with
  | zero =>
      intro ev h
      exfalso
      cases ev <;> simp at h
  | succ n IHn =>
      intro ev hev v tab hint s hs
      cases ev with
      | handleTab =>
          simp only [handle_editor_event]
          split
          · exact ⟨_, rfl, run_edit_commands_navInv _ _⟩
          · exact ⟨_, rfl, hs⟩
      | ctrlD =>
          simp only [handle_editor_event]
          split
          · exact ⟨_, rfl, hs⟩
          · exact ⟨_, rfl, run_edit_commands_navInv _ _⟩
      | ctrlC =>
          refine ⟨_, rfl, fun hm => ?_⟩
          exact absurd hm (run_edit_commands_not_traversal s [.clear])
      | clearScreen => exact ⟨_, rfl, hs⟩
      | enter =>
          simp only [handle_editor_event]
          split
          · refine ⟨_, rfl, fun hm => ?_⟩
            exact absurd hm
              (run_edit_commands_not_traversal (append_to_history s) [.clear])
          · exact ⟨_, rfl, run_edit_commands_navInv _ _⟩
      | edit commands => exact ⟨_, rfl, run_edit_commands_navInv _ _⟩
      | mouse => exact ⟨_, rfl, hs⟩
      | resize w h2 => exact ⟨_, rfl, hs⟩
      | repaint => exact ⟨_, rfl, hs⟩
      | previousHistory =>
          obtain ⟨s1, he, -, hk⟩ := previous_history_inv s hs
          exact ⟨(s1, Option.none), by simp [handle_editor_event, he],
            fun _ => hk⟩
      | nextHistory =>
          obtain ⟨s1, he, -, hk⟩ := next_history_inv s hs
          exact ⟨(s1, Option.none), by simp [handle_editor_event, he],
            fun _ => hk⟩
      | up =>
          obtain ⟨s1, he, hk⟩ := up_command_inv s hs
          exact ⟨(s1, Option.none), by simp [handle_editor_event, he], hk⟩
      | down =>
          obtain ⟨s1, he, hk⟩ := down_command_inv s hs
          exact ⟨(s1, Option.none), by simp [handle_editor_event, he], hk⟩
      | searchHistory =>
          exact ⟨_, rfl, fun hm => absurd hm (by simp [enter_history_search])⟩
      | paste events =>
          have h1 : sizeOf (ReedlineEvent.paste events) = 1 + sizeOf events := by
            simp
          exact paste_events_loop_inv n (fun e he => IHn e he) events
            (by omega) v tab hint s Option.none hs
      | multiple events =>
          have h1 : sizeOf (ReedlineEvent.multiple events) = 1 + sizeOf events := by
            simp
          exact multiple_events_loop_inv n (fun e he => IHn e he) events
            (by omega) v tab hint s Option.none hs
      | none => exact ⟨_, rfl, hs⟩

theorem handle_event_inv (v : String → ValidationResult)
    (tab : LineBuffer → LineBuffer) (hint : String) (s : Engine)
    (ev : ReedlineEvent) (hs : navInv s) :
    ∃ r, handle_event v tab hint s ev = some r ∧ navInv r.1 := by
  rw [handle_event]
  by_cases hm : s.inputMode = .historySearch
  · rw [if_pos hm]
    exact ⟨_, rfl, fun ht =>
      absurd ht (handle_history_search_event_not_traversal s ev hm)⟩
  · rw [if_neg hm]
    exact handle_editor_event_inv (sizeOf ev) ev le_rfl v tab hint s hs

/-- States of the engine reachable from `Reedline::create()` under event
dispatch, with arbitrary collaborators (validator, tab handler, hint) and
arbitrary events, wrappers included. -/
inductive Reachable : Engine → Prop where
  | init : Reachable Engine.create
  | step {s s1 : Engine} {sig : Option Signal}
      {v : String → ValidationResult} {tab : LineBuffer → LineBuffer}
      {hint : String} {ev : ReedlineEvent} :
      Reachable s → handle_event v tab hint s ev = some (s1, sig) →
      Reachable s1

theorem reachable_navInv (s : Engine) (h : Reachable s) : navInv s := by
  induction h with
  | init =>
      intro hm
      simp [Engine.create] at hm
  | step hprev heq IH =>
      obtain ⟨r, hr2, hnr⟩ := handle_event_inv _ _ _ _ _ IH
      rw [heq] at hr2
      obtain rfl := Option.some.inj hr2
      exact hnr

/-- C4: in every reachable state of the engine, the active navigation query
while in HistoryTraversal mode is Normal or PrefixSearch, every history
step through `previous_history`/`next_history` completes without reaching
the aborting SubstringSearch branch of `update_buffer_from_history`, and no
event dispatch whatsoever (wrappers included) executes that branch. -/
theorem c4_substring_branch_unreachable (s : Engine) (hs : Reachable s) :
    (s.inputMode = .historyTraversal →
       s.history.navigation.isTraversalKind = true) ∧
    previous_history s ≠ Option.none ∧
    next_history s ≠ Option.none ∧
    (∀ (v : String → ValidationResult) (tab : LineBuffer → LineBuffer)
       (hint : String) (ev : ReedlineEvent),
       handle_event v tab hint s ev ≠ Option.none) := by
  have hinv := reachable_navInv s hs
  refine ⟨hinv, ?_, ?_, ?_⟩
  · obtain ⟨s1, he, -, -⟩ := previous_history_inv s hinv
    simp [he]
  · obtain ⟨s1, he, -, -⟩ := next_history_inv s hinv
    simp [he]
  · intro v tab hint ev
    obtain ⟨r, hr, -⟩ := handle_event_inv v tab hint s ev hinv
    simp [hr]

/-- Witness for C4 at the initial engine state. -/
theorem c4_substring_branch_unreachable_witness :
    (Engine.create.inputMode = .historyTraversal →
       Engine.create.history.navigation.isTraversalKind = true) ∧
    previous_history Engine.create ≠ Option.none ∧
    next_history Engine.create ≠ Option.none ∧
    (∀ (v : String → ValidationResult) (tab : LineBuffer → LineBuffer)
       (hint : String) (ev : ReedlineEvent),
       handle_event v tab hint Engine.create ev ≠ Option.none) :=
  c4_substring_branch_unreachable Engine.create Reachable.init

end Reedline
